import Mathlib

/-!
Verification development for the secimport asset-correlation core.

This file gives a shallow embedding of the entity-resolution engine
(src/secimport/enrichment/correlator.py, models.py, scoring.py and
src/secimport/normalizers/hostname.py) and proves the specified
properties of identifier normalization, weighted matching,
confidence-arbitrated field merging, deduplication and gap analysis.

Python data is modelled as follows: `str` becomes `String`, `float`
becomes `ℚ` (every confidence literal in the source is a short decimal),
Python sets become duplicate-free `List`s with membership-checked
insertion, and dicts become association lists.  Code that can raise
(list indexing) returns `Option`, with `none` marking the raise.
-/

namespace Secimport

/-- Python `x or default` on an optional string: `None` and `""` are falsy. -/
def pyOr (x : Option String) (d : String) : String :=
  match x with
  | none => d
  | some s => if s = "" then d else s

/-! ## Structural string primitives

The Python normalizers use `str.strip`, `str.lower`, `str.split`,
`str.endswith` and decimal rendering.  The embeddings below are written by
structural recursion on the character list so that every normalizer
evaluates on concrete inputs. -/

/-- `str.lower()` on the ASCII identifier alphabet. -/
def strLower (s : String) : String :=
  String.mk (s.data.map Char.toLower)

/-- `str.strip()`: drop leading and trailing whitespace. -/
def strTrim (s : String) : String :=
  String.mk (((s.data.dropWhile Char.isWhitespace).reverse.dropWhile
    Char.isWhitespace).reverse)

/-- `str.endswith(suf)`. -/
def strEndsWith (s suf : String) : Bool :=
  decide (suf.data.length ≤ s.data.length) &&
    decide (s.data.drop (s.data.length - suf.data.length) = suf.data)

/-- Drop `n` characters from the right. -/
def strDropRight (s : String) (n : Nat) : String :=
  String.mk (s.data.take (s.data.length - n))

/-- Character membership. -/
def strContains (s : String) (c : Char) : Bool :=
  s.data.contains c

/-- Split at every occurrence of a one-character separator. -/
def splitCharAux (sep : Char) : List Char → List Char → List (List Char)
  | [], acc => [acc.reverse]
  | c :: rest, acc =>
      if c = sep then acc.reverse :: splitCharAux sep rest []
      else splitCharAux sep rest (c :: acc)

/-- `str.split(sep)` for a one-character separator. -/
def strSplitChar (s : String) (sep : Char) : List String :=
  (splitCharAux sep s.data []).map String.mk

/-- Split at every occurrence of the two-character separator `::`. -/
def splitDColonAux : List Char → List Char → List (List Char)
  | ':' :: ':' :: rest, acc => acc.reverse :: splitDColonAux rest []
  | c :: rest, acc => splitDColonAux rest (c :: acc)
  | [], acc => [acc.reverse]

/-- `s.split("::")`. -/
def strSplitDColon (s : String) : List String :=
  (splitDColonAux s.data []).map String.mk

/-- Decimal rendering of a natural number. -/
def natStr (n : Nat) : String :=
  String.mk (Nat.toDigits 10 n)

/-! ## Identifier normalization (normalizers/hostname.py) -/

/-- `_INTERNAL_SUFFIXES` from normalizers/hostname.py. -/
def INTERNAL_SUFFIXES : List String :=
  [".local", ".internal", ".corp", ".lan", ".home", ".localdomain", ".ad", ".domain"]

/-- The suffix-stripping loop of `normalize_hostname`: remove the first
matching suffix from the list, then stop (the Python loop breaks). -/
def stripOneSuffix : List String → String → String
  | [], s => s
  | suf :: rest, s =>
      if strEndsWith s suf then strDropRight s suf.length else stripOneSuffix rest s

/-- `normalize_hostname` from normalizers/hostname.py: trim, lowercase,
optionally strip one internal-domain suffix; empty input yields `none`. -/
def normalize_hostname (value : Option String) (strip_domain : Bool := true) :
    Option String :=
  match value with
  | none => none
  | some v =>
    if strTrim v = "" then none
    else
      let result := strLower (strTrim v)
      let result := if strip_domain then stripOneSuffix INTERNAL_SUFFIXES result else result
      if result = "" then none else some result

/-- Lowercase hexadecimal digit test (the `[0-9a-f]` class). -/
def isHexLower (c : Char) : Bool :=
  c.isDigit || ('a' ≤ c && c ≤ 'f')

/-- The MAC separator characters removed by `re.sub(r"[:\-.]", "", ...)`. -/
def macSeparators : List Char := [':', '-', '.']

/-- Split a character list into two-character chunks (octet strings). -/
def chunksOfTwo : List Char → List String
  | a :: b :: rest => String.mk [a, b] :: chunksOfTwo rest
  | _ => []

/-- `normalize_mac` from normalizers/hostname.py: strip separators from the
trimmed lowercased input; the result must be exactly 12 lowercase hex digits,
re-emitted as colon-separated octets. -/
def normalize_mac (value : Option String) : Option String :=
  match value with
  | none => none
  | some v =>
    if strTrim v = "" then none
    else
      let raw := (strLower (strTrim v)).data.filter (fun c => !(macSeparators.contains c))
      if raw.length = 12 && raw.all isHexLower then
        some (String.intercalate ":" (chunksOfTwo raw))
      else none

/-! ### IP parsing

`normalize_ip` delegates to the standard library (`ipaddress.ip_address`),
which is outside the repository; the definitions below model its documented
acceptance of plain IPv4 dotted-quad and IPv6 literals and the canonical
string form it emits (`str(...)`).  Scoped-zone IPv6 literals are treated
as invalid. -/

/-- Numeric value of a decimal digit string. -/
def digitsVal (l : List Char) : Nat :=
  l.foldl (fun acc c => acc * 10 + (c.toNat - '0'.toNat)) 0

/-- Parse one IPv4 octet: decimal, at most three digits, no leading zeros,
value at most 255. -/
def parseDecOctet (s : String) : Option Nat :=
  if s = "" then none
  else if !(s.toList.all Char.isDigit) then none
  else if s.length > 3 then none
  else if s.length > 1 && s.data.headD ' ' = '0' then none
  else
    let n := digitsVal s.toList
    if n ≤ 255 then some n else none

/-- Parse a dotted-quad IPv4 literal into its four octet values. -/
def parseIPv4 (s : String) : Option (List Nat) :=
  let parts := strSplitChar s '.'
  if parts.length = 4 then
    let vals := parts.filterMap parseDecOctet
    if vals.length = 4 then some vals else none
  else none

/-- Value of a hexadecimal digit character. -/
def hexVal (c : Char) : Nat :=
  if c.isDigit then c.toNat - '0'.toNat
  else if 'a' ≤ c && c ≤ 'f' then c.toNat - 'a'.toNat + 10
  else if 'A' ≤ c && c ≤ 'F' then c.toNat - 'A'.toNat + 10
  else 0

/-- Hexadecimal digit test, either case. -/
def isHexChar (c : Char) : Bool :=
  c.isDigit || ('a' ≤ c && c ≤ 'f') || ('A' ≤ c && c ≤ 'F')

/-- Parse one IPv6 hextet: one to four hex digits. -/
def parseHexGroup (s : String) : Option Nat :=
  if s ≠ "" && s.length ≤ 4 && s.toList.all isHexChar then
    some (s.toList.foldl (fun acc c => acc * 16 + hexVal c) 0)
  else none

/-- Parse colon-separated IPv6 groups where only the final group may be a
dotted-quad IPv4 tail (which contributes two hextets). -/
def parseGroups : List String → Option (List Nat)
  | [] => some []
  | [last] =>
    if strContains last '.' then
      match parseIPv4 last with
      | some [a, b, c, d] => some [a * 256 + b, c * 256 + d]
      | _ => none
    else (parseHexGroup last).map fun n => [n]
  | p :: rest =>
    match parseHexGroup p, parseGroups rest with
    | some n, some ns => some (n :: ns)
    | _, _ => none

/-- Parse colon-separated IPv6 groups, hex hextets only (no IPv4 tail). -/
def parseGroupsHexOnly (parts : List String) : Option (List Nat) :=
  parts.foldr
    (fun p acc =>
      match parseHexGroup p, acc with
      | some n, some ns => some (n :: ns)
      | _, _ => none)
    (some [])

/-- Parse an IPv6 literal into its eight hextet values.  At most one `::`
compression which must stand for at least one zero hextet. -/
def parseIPv6 (s : String) : Option (List Nat) :=
  if strContains s '%' then none
  else
    match strSplitDColon s with
    | [whole] =>
      (parseGroups (strSplitChar whole ':')).bind fun gs =>
        if gs.length = 8 then some gs else none
    | [l, r] =>
      let lparts := if l = "" then [] else strSplitChar l ':'
      let rparts := if r = "" then [] else strSplitChar r ':'
      (parseGroupsHexOnly lparts).bind fun lgs =>
        (parseGroups rparts).bind fun rgs =>
          if lgs.length + rgs.length ≤ 7 then
            some (lgs ++ List.replicate (8 - lgs.length - rgs.length) 0 ++ rgs)
          else none
    | _ => none

/-- Lowercase hexadecimal rendering of a hextet, no leading zeros. -/
def hexStr (n : Nat) : String :=
  String.mk (Nat.toDigits 16 n)

/-- State for scanning the leftmost longest run of zero hextets. -/
structure RunState where
  idx : Nat := 0
  curStart : Nat := 0
  curLen : Nat := 0
  bestStart : Nat := 0
  bestLen : Nat := 0
  deriving Repr

/-- One step of the zero-run scan; a new run wins only if strictly longer,
so the leftmost longest run is kept. -/
def runStep (s : RunState) (g : Nat) : RunState :=
  if g = 0 then
    let curStart := if s.curLen = 0 then s.idx else s.curStart
    let curLen := s.curLen + 1
    if curLen > s.bestLen then
      { idx := s.idx + 1, curStart := curStart, curLen := curLen,
        bestStart := curStart, bestLen := curLen }
    else
      { s with idx := s.idx + 1, curStart := curStart, curLen := curLen }
  else
    { s with idx := s.idx + 1, curLen := 0 }

/-- Leftmost longest run of zero hextets, as (start, length). -/
def bestZeroRun (gs : List Nat) : Nat × Nat :=
  let s := gs.foldl runStep {}
  (s.bestStart, s.bestLen)

/-- Canonical string of an IPv6 address: compress the leftmost longest run
of two or more zero hextets. -/
def ipv6String (gs : List Nat) : String :=
  let p := bestZeroRun gs
  if p.2 ≥ 2 then
    String.intercalate ":" ((gs.take p.1).map hexStr) ++ "::" ++
      String.intercalate ":" ((gs.drop (p.1 + p.2)).map hexStr)
  else
    String.intercalate ":" (gs.map hexStr)

/-- Model of `str(ipaddress.ip_address(s))`: try IPv4 first, then IPv6;
return the canonical string or `none` when the literal is invalid. -/
def ip_address_str (s : String) : Option String :=
  match parseIPv4 s with
  | some vals => some (String.intercalate "." (vals.map natStr))
  | none => (parseIPv6 s).map ipv6String

/-- `normalize_ip` from normalizers/hostname.py: trim, validate as
IPv4/IPv6, return the canonical string; invalid or empty yields `none`. -/
def normalize_ip (value : Option String) : Option String :=
  match value with
  | none => none
  | some v =>
    if strTrim v = "" then none
    else ip_address_str (strTrim v)

/-! ## Confidence tables (enrichment/scoring.py) -/

namespace MatchWeights

/-- `MatchWeights.WEIGHTS` from enrichment/scoring.py. -/
def WEIGHTS : List (String × ℚ) :=
  [("agent_id", mkRat 99 100), ("serial_number", mkRat 95 100),
   ("mac_address", mkRat 90 100), ("hostname", mkRat 85 100),
   ("ip_address", mkRat 70 100)]

/-- `MatchWeights.get`: table lookup, defaulting to 0.5. -/
def get (identifier_type : String) : ℚ :=
  (WEIGHTS.lookup identifier_type).getD (mkRat 5 10)

end MatchWeights

namespace SourceConfidence

/-- `SourceConfidence.SCORES` from enrichment/scoring.py. -/
def SCORES : List (String × ℚ) :=
  [("edr", mkRat 95 100), ("crowdstrike", mkRat 95 100), ("crowdstrike_falcon", mkRat 95 100),
   ("defender_endpoint", mkRat 95 100), ("sentinelone", mkRat 95 100), ("carbon_black", mkRat 95 100),
   ("symantec_endpoint", mkRat 90 100), ("trellix", mkRat 90 100), ("trend_micro", mkRat 90 100),
   ("xdr", mkRat 93 100), ("cortex_xdr", mkRat 93 100), ("vision_one", mkRat 93 100),
   ("cloud", mkRat 90 100), ("aws", mkRat 90 100), ("azure", mkRat 90 100), ("gcp", mkRat 90 100),
   ("av", mkRat 90 100),
   ("cmdb", mkRat 85 100), ("servicenow", mkRat 85 100), ("bmc_helix", mkRat 85 100),
   ("directory", mkRat 85 100), ("active_directory", mkRat 85 100), ("azure_ad", mkRat 85 100),
   ("scanner", mkRat 80 100), ("qualys", mkRat 80 100), ("nessus", mkRat 80 100), ("tenable", mkRat 80 100),
   ("rapid7", mkRat 80 100), ("openvas", mkRat 80 100), ("crowdstrike_scanner", mkRat 80 100),
   ("ipam", mkRat 75 100), ("infoblox", mkRat 75 100), ("netbox", mkRat 75 100), ("solarwinds", mkRat 75 100),
   ("ndr", mkRat 60 100), ("darktrace", mkRat 60 100), ("extrahop", mkRat 60 100), ("vectra", mkRat 60 100),
   ("siem", mkRat 50 100), ("splunk", mkRat 50 100), ("sentinel", mkRat 50 100), ("qradar", mkRat 50 100)]

/-- `SourceConfidence.DEFAULT`. -/
def DEFAULT : ℚ := mkRat 50 100

/-- `SourceConfidence.get`: lowercased lookup, empty or unknown names
default to 0.5. -/
def get (source_system : String) : ℚ :=
  if source_system = "" then DEFAULT
  else (SCORES.lookup (strLower source_system)).getD DEFAULT

end SourceConfidence

end Secimport

namespace Secimport

/-! ## Set-as-list and association-list helpers

Python sets are modelled as duplicate-free lists with membership-checked
append; dicts as association lists in insertion order. -/

/-- Python set `add`: append the element when missing. -/
def addUnique (l : List String) (a : String) : List String :=
  if a ∈ l then l else l ++ [a]

/-- Python set union-assign: add every element of the second set. -/
def unionU (a b : List String) : List String :=
  b.foldl addUnique a

/-- Python nonempty set-intersection test. -/
def hasCommon (a b : List String) : Bool :=
  a.any fun x => b.contains x

/-- Replace the value stored under a key in an association list
(append when the key is absent). -/
def alSet {α : Type} : List (String × α) → String → α → List (String × α)
  | [], k, v => [(k, v)]
  | (k', v') :: rest, k, v =>
      if k' = k then (k', v) :: rest else (k', v') :: alSet rest k v

/-! ## Enrichment data models (enrichment/models.py) -/

/-- `CorrelationKey`: five sets of normalized identifier strings. -/
structure CorrelationKey where
  hostnames : List String := []
  ip_addresses : List String := []
  mac_addresses : List String := []
  serial_numbers : List String := []
  agent_ids : List String := []
  deriving Repr, DecidableEq

namespace CorrelationKey

/-- `CorrelationKey.is_empty`. -/
def is_empty (k : CorrelationKey) : Bool :=
  k.hostnames.isEmpty && k.ip_addresses.isEmpty && k.mac_addresses.isEmpty &&
    k.serial_numbers.isEmpty && k.agent_ids.isEmpty

/-- `CorrelationKey.overlaps`: some identifier set intersects. -/
def overlaps (a b : CorrelationKey) : Bool :=
  hasCommon a.agent_ids b.agent_ids ||
  hasCommon a.serial_numbers b.serial_numbers ||
  hasCommon a.mac_addresses b.mac_addresses ||
  hasCommon a.hostnames b.hostnames ||
  hasCommon a.ip_addresses b.ip_addresses

/-- `CorrelationKey.merge`: union every identifier set of the other key in. -/
def merge (a b : CorrelationKey) : CorrelationKey :=
  { hostnames := unionU a.hostnames b.hostnames,
    ip_addresses := unionU a.ip_addresses b.ip_addresses,
    mac_addresses := unionU a.mac_addresses b.mac_addresses,
    serial_numbers := unionU a.serial_numbers b.serial_numbers,
    agent_ids := unionU a.agent_ids b.agent_ids }

end CorrelationKey

/-- `FieldProvenance`: accepted value for one tracked attribute plus the
asserting source and its confidence. -/
structure FieldProvenance where
  value : String
  source_system : String
  timestamp : Option Nat := none
  confidence : ℚ := 1
  deriving Repr, DecidableEq

/-- `MatchResult`: outcome of matching one correlation key. -/
structure MatchResult where
  matched : Bool := false
  confidence : ℚ := 0
  matched_on : List String := []
  enriched_asset_index : Option Nat := none
  deriving Repr, DecidableEq

/-! ## Canonical input record shapes (models/base.py), restricted to the
fields the correlator reads. -/

/-- `ParsedAsset` (the fields `ingest_assets` reads). -/
structure ParsedAsset where
  source_system : Option String := none
  hostname : Option String := none
  ip_address : Option String := none
  mac_address : Option String := none
  serial_number : Option String := none
  asset_type : Option String := none
  operating_system : Option String := none
  os_version : Option String := none
  owner_email : Option String := none
  owner_name : Option String := none
  department : Option String := none
  location : Option String := none
  deriving Repr, DecidableEq

/-- `ParsedEndpoint` (the fields `ingest_endpoints` reads). -/
structure ParsedEndpoint where
  source_system : Option String := none
  hostname : Option String := none
  ip_address : Option String := none
  mac_address : Option String := none
  serial_number : Option String := none
  agent_id : Option String := none
  operating_system : Option String := none
  os_version : Option String := none
  endpoint_type : Option String := none
  owner_email : Option String := none
  owner_name : Option String := none
  department : Option String := none
  agent_status : Option String := none
  policy_status : Option String := none
  isolation_status : Option String := none
  deriving Repr, DecidableEq

/-- `ParsedVulnerability` (the fields `ingest_vulnerabilities` reads). -/
structure ParsedVulnerability where
  source_system : Option String := none
  hostname : Option String := none
  ip_address : Option String := none
  severity : String := ""
  deriving Repr, DecidableEq

/-- `ParsedOwnerMapping` (the fields `ingest_owner_mappings` reads). -/
structure ParsedOwnerMapping where
  source_system : Option String := none
  ip_address : Option String := none
  owner_email : Option String := none
  owner_name : Option String := none
  department : Option String := none
  location : Option String := none
  confidence : ℚ := 1
  deriving Repr, DecidableEq

/-- `ParsedNetworkObservation` (the fields `ingest_network_observations` reads). -/
structure ParsedNetworkObservation where
  source_system : Option String := none
  hostname : Option String := none
  ip_address : Option String := none
  mac_address : Option String := none
  deriving Repr, DecidableEq

/-- A raw record stored in `source_records` (only the asset and endpoint
ingestion paths append raw records). -/
inductive RawRecord where
  | asset (r : ParsedAsset)
  | endpoint (r : ParsedEndpoint)
  deriving Repr, DecidableEq

/-- The fifteen tracked provenance fields of an enriched asset. -/
inductive FieldName where
  | hostname | ip_address | mac_address | serial_number | agent_id
  | operating_system | os_version | asset_type | owner_email | owner_name
  | department | location | agent_status | policy_status | isolation_status
  deriving Repr, DecidableEq

/-- `EnrichedAsset`: correlation key, fifteen provenance slots, source
presence, vulnerability counters and per-source raw records. -/
structure EnrichedAsset where
  correlation_key : CorrelationKey := {}
  hostname : Option FieldProvenance := none
  ip_address : Option FieldProvenance := none
  mac_address : Option FieldProvenance := none
  serial_number : Option FieldProvenance := none
  agent_id : Option FieldProvenance := none
  operating_system : Option FieldProvenance := none
  os_version : Option FieldProvenance := none
  asset_type : Option FieldProvenance := none
  owner_email : Option FieldProvenance := none
  owner_name : Option FieldProvenance := none
  department : Option FieldProvenance := none
  location : Option FieldProvenance := none
  agent_status : Option FieldProvenance := none
  policy_status : Option FieldProvenance := none
  isolation_status : Option FieldProvenance := none
  present_in_sources : List String := []
  absent_from_sources : List String := []
  vulnerability_count : Nat := 0
  critical_vuln_count : Nat := 0
  high_vuln_count : Nat := 0
  source_records : List (String × List RawRecord) := []
  deriving Repr, DecidableEq

namespace EnrichedAsset

/-- Read a tracked provenance slot by field name (`getattr`). -/
def getF (a : EnrichedAsset) : FieldName → Option FieldProvenance
  | .hostname => a.hostname
  | .ip_address => a.ip_address
  | .mac_address => a.mac_address
  | .serial_number => a.serial_number
  | .agent_id => a.agent_id
  | .operating_system => a.operating_system
  | .os_version => a.os_version
  | .asset_type => a.asset_type
  | .owner_email => a.owner_email
  | .owner_name => a.owner_name
  | .department => a.department
  | .location => a.location
  | .agent_status => a.agent_status
  | .policy_status => a.policy_status
  | .isolation_status => a.isolation_status

/-- Write a tracked provenance slot by field name (`setattr`). -/
def setF (a : EnrichedAsset) : FieldName → Option FieldProvenance → EnrichedAsset
  | .hostname, p => { a with hostname := p }
  | .ip_address, p => { a with ip_address := p }
  | .mac_address, p => { a with mac_address := p }
  | .serial_number, p => { a with serial_number := p }
  | .agent_id, p => { a with agent_id := p }
  | .operating_system, p => { a with operating_system := p }
  | .os_version, p => { a with os_version := p }
  | .asset_type, p => { a with asset_type := p }
  | .owner_email, p => { a with owner_email := p }
  | .owner_name, p => { a with owner_name := p }
  | .department, p => { a with department := p }
  | .location, p => { a with location := p }
  | .agent_status, p => { a with agent_status := p }
  | .policy_status, p => { a with policy_status := p }
  | .isolation_status, p => { a with isolation_status := p }

/-- `EnrichedAsset.set_field`: keep the stored provenance unless the value
is present and either no provenance is stored or the new confidence is
strictly greater. -/
def set_field (a : EnrichedAsset) (field_name : FieldName) (value : Option String)
    (source_system : String) (confidence : ℚ := 1) (timestamp : Option Nat := none) :
    EnrichedAsset :=
  match value with
  | none => a
  | some v =>
    match a.getF field_name with
    | none =>
        a.setF field_name (some { value := v, source_system, timestamp, confidence })
    | some current =>
        if confidence > current.confidence then
          a.setF field_name (some { value := v, source_system, timestamp, confidence })
        else a

end EnrichedAsset

/-- `GapReport`: coverage gap between two sources. -/
structure GapReport where
  source_a : String
  source_b : String
  in_a_not_b : List CorrelationKey := []
  in_b_not_a : List CorrelationKey := []
  in_both : List CorrelationKey := []
  deriving Repr, DecidableEq

namespace GapReport

/-- `GapReport.total_a`. -/
def total_a (g : GapReport) : Nat := g.in_a_not_b.length + g.in_both.length

/-- `GapReport.total_b`. -/
def total_b (g : GapReport) : Nat := g.in_b_not_a.length + g.in_both.length

/-- `GapReport.coverage_a_to_b`: fraction of source-A assets found in B,
zero when the denominator is zero. -/
def coverage_a_to_b (g : GapReport) : ℚ :=
  if g.total_a = 0 then 0 else (g.in_both.length : ℚ) / (g.total_a : ℚ)

/-- `GapReport.coverage_b_to_a`, symmetric. -/
def coverage_b_to_a (g : GapReport) : ℚ :=
  if g.total_b = 0 then 0 else (g.in_both.length : ℚ) / (g.total_b : ℚ)

end GapReport

end Secimport

namespace Secimport

/-! ## The correlator store (enrichment/correlator.py) -/

/-- One inverted index: identifier value to list of asset-store positions. -/
abbrev IdxMap := List (String × List Nat)

/-- `AssetCorrelator` state: the asset list and the five indexes. -/
structure Store where
  assets : List EnrichedAsset := []
  hostname_idx : IdxMap := []
  ip_idx : IdxMap := []
  mac_idx : IdxMap := []
  serial_idx : IdxMap := []
  agent_id_idx : IdxMap := []
  deriving Repr, DecidableEq

/-- The freshly constructed correlator. -/
def emptyStore : Store := {}

/-- `asset_count`. -/
def Store.asset_count (st : Store) : Nat := st.assets.length

/-- `get_enriched_assets` (a snapshot of the asset list). -/
def Store.get_enriched_assets (st : Store) : List EnrichedAsset := st.assets

/-- `_build_key`: normalize each raw identifier and keep the survivors. -/
def buildKey (hostname ip_address mac_address serial_number agent_id : Option String) :
    CorrelationKey :=
  let key : CorrelationKey := {}
  let key := match normalize_hostname hostname with
    | some hn => { key with hostnames := addUnique key.hostnames hn }
    | none => key
  let key := match normalize_ip ip_address with
    | some ip => { key with ip_addresses := addUnique key.ip_addresses ip }
    | none => key
  let key := match normalize_mac mac_address with
    | some mac => { key with mac_addresses := addUnique key.mac_addresses mac }
    | none => key
  let key := match serial_number with
    | some s =>
        if strTrim s ≠ "" then
          { key with serial_numbers := addUnique key.serial_numbers (strLower (strTrim s)) }
        else key
    | none => key
  let key := match agent_id with
    | some s =>
        if strTrim s ≠ "" then
          { key with agent_ids := addUnique key.agent_ids (strTrim s) }
        else key
    | none => key
  key

/-- Running state of `_find_match`'s scan. -/
structure MState where
  best_idx : Option Nat := none
  best_confidence : ℚ := 0
  matched_on : List String := []
  deriving Repr, DecidableEq

/-- One value of `_find_match`'s inner loop: on an index hit, a strictly
higher weight takes the first recorded position (raising, hence `none`, on
an empty position list); an equal weight with a current best only appends
the identifier type. -/
def stepVal (id_type : String) (idx_map : IdxMap) (s : MState) (val : String) :
    Option MState :=
  match idx_map.lookup val with
  | none => some s
  | some l =>
    let weight := MatchWeights.get id_type
    if weight > s.best_confidence then
      match l.head? with
      | none => none
      | some p =>
          some { best_idx := some p, best_confidence := weight, matched_on := [id_type] }
    else if weight = s.best_confidence ∧ s.best_idx.isSome then
      some { s with matched_on := s.matched_on ++ [id_type] }
    else some s

/-- One identifier type of `_find_match`'s outer loop. -/
def stepType (s : MState) : String × List String × IdxMap → Option MState
  | (t, vs, m) => vs.foldlM (stepVal t m) s

/-- The identifier types in the order `_find_match` examines them
(descending match weight). -/
def matchOrder (st : Store) (key : CorrelationKey) :
    List (String × List String × IdxMap) :=
  [("agent_id", key.agent_ids, st.agent_id_idx),
   ("serial_number", key.serial_numbers, st.serial_idx),
   ("mac_address", key.mac_addresses, st.mac_idx),
   ("hostname", key.hostnames, st.hostname_idx),
   ("ip_address", key.ip_addresses, st.ip_idx)]

/-- `_find_match`: scan the indexes in descending weight order and report
the best match, or a default no-match result. -/
def findMatch (st : Store) (key : CorrelationKey) : Option MatchResult :=
  ((matchOrder st key).foldlM stepType {}).map fun s =>
    match s.best_idx with
    | some _ =>
        { matched := true, confidence := s.best_confidence,
          matched_on := s.matched_on, enriched_asset_index := s.best_idx }
    | none => {}

/-- Register one identifier value: create the entry when absent, then
append the position only when not already present. -/
def idxAdd (m : IdxMap) (val : String) (asset_idx : Nat) : IdxMap :=
  match m.lookup val with
  | some l => if asset_idx ∈ l then m else alSet m val (l ++ [asset_idx])
  | none => m ++ [(val, [asset_idx])]

/-- Register every value of one identifier set. -/
def idxAddAll (m : IdxMap) (vals : List String) (asset_idx : Nat) : IdxMap :=
  vals.foldl (fun m v => idxAdd m v asset_idx) m

/-- `_update_indexes`: register every identifier value of the key against
the given store position, in all five indexes. -/
def Store.updateIndexes (st : Store) (asset_idx : Nat) (key : CorrelationKey) : Store :=
  { st with
    hostname_idx := idxAddAll st.hostname_idx key.hostnames asset_idx,
    ip_idx := idxAddAll st.ip_idx key.ip_addresses asset_idx,
    mac_idx := idxAddAll st.mac_idx key.mac_addresses asset_idx,
    serial_idx := idxAddAll st.serial_idx key.serial_numbers asset_idx,
    agent_id_idx := idxAddAll st.agent_id_idx key.agent_ids asset_idx }

/-- Append a raw record under a source key of `source_records`. -/
def srAppend (records : List (String × List RawRecord)) (src : String) (r : RawRecord) :
    List (String × List RawRecord) :=
  match records.lookup src with
  | some l => alSet records src (l ++ [r])
  | none => records ++ [(src, [r])]

/-- Extend a source key of `source_records` with a list of raw records. -/
def srExtend (records : List (String × List RawRecord)) (src : String)
    (rs : List RawRecord) : List (String × List RawRecord) :=
  match records.lookup src with
  | some l => alSet records src (l ++ rs)
  | none => records ++ [(src, rs)]

/-- The eleven `set_field` calls of `ingest_assets`, in source order. -/
def applyAssetFields (e : EnrichedAsset) (a : ParsedAsset) (source : String)
    (confidence : ℚ) : EnrichedAsset :=
  (((((((((((e.set_field .hostname a.hostname source confidence
    ).set_field .ip_address a.ip_address source confidence
    ).set_field .mac_address a.mac_address source confidence
    ).set_field .serial_number a.serial_number source confidence
    ).set_field .operating_system a.operating_system source confidence
    ).set_field .os_version a.os_version source confidence
    ).set_field .asset_type a.asset_type source confidence
    ).set_field .owner_email a.owner_email source confidence
    ).set_field .owner_name a.owner_name source confidence
    ).set_field .department a.department source confidence
    ).set_field .location a.location source confidence)

/-- The fourteen `set_field` calls of `ingest_endpoints`, in source order. -/
def applyEndpointFields (e : EnrichedAsset) (ep : ParsedEndpoint) (source : String)
    (confidence : ℚ) : EnrichedAsset :=
  ((((((((((((((e.set_field .hostname ep.hostname source confidence
    ).set_field .ip_address ep.ip_address source confidence
    ).set_field .mac_address ep.mac_address source confidence
    ).set_field .serial_number ep.serial_number source confidence
    ).set_field .agent_id ep.agent_id source confidence
    ).set_field .operating_system ep.operating_system source confidence
    ).set_field .os_version ep.os_version source confidence
    ).set_field .asset_type ep.endpoint_type source confidence
    ).set_field .owner_email ep.owner_email source confidence
    ).set_field .owner_name ep.owner_name source confidence
    ).set_field .department ep.department source confidence
    ).set_field .agent_status ep.agent_status source confidence
    ).set_field .policy_status ep.policy_status source confidence
    ).set_field .isolation_status ep.isolation_status source confidence)

/-- The three `set_field` calls of `ingest_network_observations`. -/
def applyNetObsFields (e : EnrichedAsset) (obs : ParsedNetworkObservation)
    (source : String) (confidence : ℚ) : EnrichedAsset :=
  (((e.set_field .hostname obs.hostname source confidence
    ).set_field .ip_address obs.ip_address source confidence
    ).set_field .mac_address obs.mac_address source confidence)

/-- Get-or-create step shared by the asset / endpoint / network paths:
on a match fetch the matched asset (raising when the position is out of
range), otherwise append a fresh asset.  Returns the position to write
back to and the asset list to write into. -/
def getOrCreate (st : Store) (m : MatchResult) :
    Option (Nat × EnrichedAsset × List EnrichedAsset) :=
  if m.matched then
    match m.enriched_asset_index with
    | some i =>
      match st.assets.get? i with
      | some e => some (i, e, st.assets)
      | none => none
    | none => some (st.assets.length, ({} : EnrichedAsset), st.assets ++ [({} : EnrichedAsset)])
  else some (st.assets.length, ({} : EnrichedAsset), st.assets ++ [({} : EnrichedAsset)])

/-- One record of `ingest_assets` (lines 66-103 of correlator.py). -/
def ingestAssetOne (st : Store) (a : ParsedAsset) : Option Store :=
  let source := pyOr a.source_system "unknown"
  let confidence := SourceConfidence.get source
  let key := buildKey a.hostname a.ip_address a.mac_address a.serial_number none
  (findMatch st key).bind fun m =>
    (getOrCreate st m).map fun g =>
      let e := g.2.1
      let e := { e with
        correlation_key := e.correlation_key.merge key,
        present_in_sources := addUnique e.present_in_sources source,
        source_records := srAppend e.source_records source (RawRecord.asset a) }
      let e := applyAssetFields e a source confidence
      let st1 := { st with assets := g.2.2.set g.1 e }
      st1.updateIndexes (st1.assets.length - 1) key

/-- `ingest_assets`. -/
def ingest_assets (st : Store) (assets : List ParsedAsset) : Option (Store × Nat) :=
  assets.foldlM
    (fun p a => (ingestAssetOne p.1 a).map fun st2 => (st2, p.2 + 1)) (st, 0)

/-- One record of `ingest_endpoints` (lines 113-154 of correlator.py). -/
def ingestEndpointOne (st : Store) (ep : ParsedEndpoint) : Option Store :=
  let source := pyOr ep.source_system "unknown"
  let confidence := SourceConfidence.get source
  let key := buildKey ep.hostname ep.ip_address ep.mac_address ep.serial_number ep.agent_id
  (findMatch st key).bind fun m =>
    (getOrCreate st m).map fun g =>
      let e := g.2.1
      let e := { e with
        correlation_key := e.correlation_key.merge key,
        present_in_sources := addUnique e.present_in_sources source,
        source_records := srAppend e.source_records source (RawRecord.endpoint ep) }
      let e := applyEndpointFields e ep source confidence
      let st1 := { st with assets := g.2.2.set g.1 e }
      st1.updateIndexes (st1.assets.length - 1) key

/-- `ingest_endpoints`. -/
def ingest_endpoints (st : Store) (eps : List ParsedEndpoint) : Option (Store × Nat) :=
  eps.foldlM
    (fun p ep => (ingestEndpointOne p.1 ep).map fun st2 => (st2, p.2 + 1)) (st, 0)

/-- One record of `ingest_network_observations` (lines 226-252); network
observations do not append raw source records. -/
def ingestNetObsOne (st : Store) (obs : ParsedNetworkObservation) : Option Store :=
  let source := pyOr obs.source_system "unknown"
  let confidence := SourceConfidence.get source
  let key := buildKey obs.hostname obs.ip_address obs.mac_address none none
  (findMatch st key).bind fun m =>
    (getOrCreate st m).map fun g =>
      let e := g.2.1
      let e := { e with
        correlation_key := e.correlation_key.merge key,
        present_in_sources := addUnique e.present_in_sources source }
      let e := applyNetObsFields e obs source confidence
      let st1 := { st with assets := g.2.2.set g.1 e }
      st1.updateIndexes (st1.assets.length - 1) key

/-- `ingest_network_observations`. -/
def ingest_network_observations (st : Store) (obss : List ParsedNetworkObservation) :
    Option (Store × Nat) :=
  obss.foldlM
    (fun p o => (ingestNetObsOne p.1 o).map fun st2 => (st2, p.2 + 1)) (st, 0)

/-- The no-match branch of `ingest_vulnerabilities`: create an asset seeded
with the key, append it, and register the key against its position. -/
def newVulnAsset (st : Store) (key : CorrelationKey) : Nat × EnrichedAsset × Store :=
  let e : EnrichedAsset := { correlation_key := CorrelationKey.merge {} key }
  let st1 := { st with assets := st.assets ++ [e] }
  let st2 := st1.updateIndexes (st1.assets.length - 1) key
  (st1.assets.length - 1, e, st2)

/-- The counter updates of one vulnerability record: `vulnerability_count`
always, then exactly one sub-counter by case-insensitive severity. -/
def bumpVuln (e : EnrichedAsset) (v : ParsedVulnerability) (source : String) :
    EnrichedAsset :=
  let e := { e with
    present_in_sources := addUnique e.present_in_sources source,
    vulnerability_count := e.vulnerability_count + 1 }
  let severity := strLower v.severity
  if severity = "critical" then
    { e with critical_vuln_count := e.critical_vuln_count + 1 }
  else if severity = "high" then
    { e with high_vuln_count := e.high_vuln_count + 1 }
  else e

/-- One record of `ingest_vulnerabilities` (lines 164-188). -/
def ingestVulnOne (st : Store) (v : ParsedVulnerability) : Option Store :=
  let source := pyOr v.source_system "unknown"
  let key := buildKey v.hostname v.ip_address none none none
  (findMatch st key).bind fun m =>
    let got : Option (Nat × EnrichedAsset × Store) :=
      if m.matched then
        match m.enriched_asset_index with
        | some i => (st.assets.get? i).map fun e => (i, e, st)
        | none => some (newVulnAsset st key)
      else some (newVulnAsset st key)
    got.map fun g =>
      let e := bumpVuln g.2.1 v source
      { g.2.2 with assets := g.2.2.assets.set g.1 e }

/-- `ingest_vulnerabilities`. -/
def ingest_vulnerabilities (st : Store) (vs : List ParsedVulnerability) :
    Option (Store × Nat) :=
  vs.foldlM
    (fun p v => (ingestVulnOne p.1 v).map fun st2 => (st2, p.2 + 1)) (st, 0)

/-- One record of `ingest_owner_mappings` (lines 198-214): on a match set
the four ownership fields with the source confidence discounted by the
record's own confidence; on no match do nothing.  The boolean reports
whether the mapping was applied (counted). -/
def ingestOwnerOne (st : Store) (m : ParsedOwnerMapping) : Option (Store × Bool) :=
  let source := pyOr m.source_system "unknown"
  let confidence := SourceConfidence.get source * m.confidence
  let key := buildKey none m.ip_address none none none
  (findMatch st key).bind fun r =>
    if r.matched then
      match r.enriched_asset_index with
      | some i =>
        (st.assets.get? i).map fun e =>
          let e := ((((e.set_field .owner_email m.owner_email source confidence
            ).set_field .owner_name m.owner_name source confidence
            ).set_field .department m.department source confidence
            ).set_field .location m.location source confidence)
          ({ st with assets := st.assets.set i e }, true)
      | none => some (st, false)
    else some (st, false)

/-- `ingest_owner_mappings`; the count reflects only applied mappings. -/
def ingest_owner_mappings (st : Store) (ms : List ParsedOwnerMapping) :
    Option (Store × Nat) :=
  ms.foldlM
    (fun p m =>
      (ingestOwnerOne p.1 m).map fun q => (q.1, if q.2 then p.2 + 1 else p.2))
    (st, 0)

/-- One asset of `gap_analysis`'s loop: append its key to the partition
selected by membership of the two sources. -/
def gapStep (source_a source_b : String) (report : GapReport)
    (asset : EnrichedAsset) : GapReport :=
  let in_a := source_a ∈ asset.present_in_sources
  let in_b := source_b ∈ asset.present_in_sources
  if in_a ∧ in_b then
    { report with in_both := report.in_both ++ [asset.correlation_key] }
  else if in_a then
    { report with in_a_not_b := report.in_a_not_b ++ [asset.correlation_key] }
  else if in_b then
    { report with in_b_not_a := report.in_b_not_a ++ [asset.correlation_key] }
  else report

/-- `gap_analysis`: partition assets by source membership. -/
def gap_analysis (st : Store) (source_a source_b : String) : GapReport :=
  st.assets.foldl (gapStep source_a source_b)
    { source_a := source_a, source_b := source_b }

/-- `_merge_assets`: union keys and presence, keep the higher-confidence
provenance per tracked field (tie favours the kept asset), sum the three
vulnerability counters, and concatenate raw records per source. -/
def mergeAssets (keep mg : EnrichedAsset) : EnrichedAsset :=
  let k1 := { keep with
    correlation_key := keep.correlation_key.merge mg.correlation_key,
    present_in_sources := unionU keep.present_in_sources mg.present_in_sources }
  let k2 :=
    [FieldName.hostname, .ip_address, .mac_address, .serial_number,
     .agent_id, .operating_system, .os_version, .asset_type,
     .owner_email, .owner_name, .department, .location,
     .agent_status, .policy_status, .isolation_status].foldl
      (fun acc f =>
        match mg.getF f with
        | none => acc
        | some other =>
          match acc.getF f with
          | none => acc.setF f (some other)
          | some current =>
            if other.confidence > current.confidence then acc.setF f (some other)
            else acc)
      k1
  let k3 := { k2 with
    vulnerability_count := k2.vulnerability_count + mg.vulnerability_count,
    critical_vuln_count := k2.critical_vuln_count + mg.critical_vuln_count,
    high_vuln_count := k2.high_vuln_count + mg.high_vuln_count }
  mg.source_records.foldl
    (fun acc p => { acc with source_records := srExtend acc.source_records p.1 p.2 })
    k3

/-- The inner `while j` scan of `deduplicate` for one kept asset: absorb
every later asset whose key overlaps the (growing) kept asset, keep the
others in order, and count the merges. -/
def dedupInner (keep : EnrichedAsset) :
    List EnrichedAsset → EnrichedAsset × List EnrichedAsset × Nat
  | [] => (keep, [], 0)
  | x :: xs =>
    if keep.correlation_key.overlaps x.correlation_key then
      let r := dedupInner (mergeAssets keep x) xs
      (r.1, r.2.1, r.2.2 + 1)
    else
      let r := dedupInner keep xs
      (r.1, x :: r.2.1, r.2.2)

/-- The outer `while i` scan of `deduplicate`, fuelled by the list length
(the survivors of an inner scan never outnumber its input). -/
def dedupGo : Nat → List EnrichedAsset → List EnrichedAsset × Nat
  | _, [] => ([], 0)
  | 0, l => (l, 0)
  | fuel + 1, a :: rest =>
    let r := dedupInner a rest
    let r2 := dedupGo fuel r.2.1
    (r.1 :: r2.1, r.2.2 + r2.2)

/-- The full pairwise-overlap reconciliation pass over the asset list. -/
def dedupList (l : List EnrichedAsset) : List EnrichedAsset × Nat :=
  dedupGo l.length l

/-- `_rebuild_indexes` body: clear, then register every asset's key at its
position, in order. -/
def rebuildFrom : Store → Nat → List EnrichedAsset → Store
  | st, _, [] => st
  | st, i, a :: rest => rebuildFrom (st.updateIndexes i a.correlation_key) (i + 1) rest

/-- All five indexes cleared. -/
def Store.clearIndexes (st : Store) : Store :=
  { st with
    hostname_idx := [], ip_idx := [], mac_idx := [],
    serial_idx := [], agent_id_idx := [] }

/-- `_rebuild_indexes`. -/
def Store.rebuildIndexes (st : Store) : Store :=
  rebuildFrom st.clearIndexes 0 st.assets

/-- `deduplicate`: merge overlapping assets pairwise, then rebuild the
indexes only when at least one merge happened.  Returns the merge count. -/
def deduplicate (st : Store) : Store × Nat :=
  let r := dedupList st.assets
  let st1 := { st with assets := r.1 }
  if r.2 ≠ 0 then (st1.rebuildIndexes, r.2) else (st1, r.2)

/-! ## Public operations and reachability -/

/-- One public mutating operation of the engine. -/
inductive Op where
  | assets (rs : List ParsedAsset)
  | endpoints (rs : List ParsedEndpoint)
  | vulns (rs : List ParsedVulnerability)
  | owners (rs : List ParsedOwnerMapping)
  | netobs (rs : List ParsedNetworkObservation)
  | dedup
  deriving Repr

/-- Apply one public operation to the store (`none` marks a raise). -/
def applyOp (st : Store) : Op → Option Store
  | .assets rs => (ingest_assets st rs).map Prod.fst
  | .endpoints rs => (ingest_endpoints st rs).map Prod.fst
  | .vulns rs => (ingest_vulnerabilities st rs).map Prod.fst
  | .owners rs => (ingest_owner_mappings st rs).map Prod.fst
  | .netobs rs => (ingest_network_observations st rs).map Prod.fst
  | .dedup => some (deduplicate st).1

/-- Run a sequence of public operations from the fresh correlator. -/
def runOps (ops : List Op) : Option Store :=
  ops.foldlM applyOp emptyStore

/-- A store state is reachable when some operation sequence produces it. -/
def Reachable (st : Store) : Prop :=
  ∃ ops : List Op, runOps ops = some st

end Secimport

namespace Secimport

/-! ## Specification predicates -/

/-- Membership of a source name in an asset's presence set, as a Bool. -/
def inSrc (s : String) (x : EnrichedAsset) : Bool :=
  decide (s ∈ x.present_in_sources)

/-- Well-formedness of one index with respect to the store size: every
entry's position list is non-empty, duplicate-free and within bounds. -/
def IdxWF (m : IdxMap) (n : Nat) : Prop :=
  ∀ p ∈ m, p.2 ≠ [] ∧ p.2.Nodup ∧ ∀ i ∈ p.2, i < n

/-- Well-formedness of the whole store: all five indexes are well-formed
with respect to the number of assets. -/
def Store.WF (st : Store) : Prop :=
  IdxWF st.hostname_idx st.assets.length ∧
  IdxWF st.ip_idx st.assets.length ∧
  IdxWF st.mac_idx st.assets.length ∧
  IdxWF st.serial_idx st.assets.length ∧
  IdxWF st.agent_id_idx st.assets.length

/-- No identifier value of the key occurs in any index: the record is
entirely novel for this store. -/
def NovelKey (st : Store) (k : CorrelationKey) : Prop :=
  (∀ v ∈ k.hostnames, st.hostname_idx.lookup v = none) ∧
  (∀ v ∈ k.ip_addresses, st.ip_idx.lookup v = none) ∧
  (∀ v ∈ k.mac_addresses, st.mac_idx.lookup v = none) ∧
  (∀ v ∈ k.serial_numbers, st.serial_idx.lookup v = none) ∧
  (∀ v ∈ k.agent_ids, st.agent_id_idx.lookup v = none)

/-- Equality of two assets outside the four ownership fields that an
applied owner mapping may change. -/
def AgreesExceptOwner (x y : EnrichedAsset) : Prop :=
  x.correlation_key = y.correlation_key ∧
  x.hostname = y.hostname ∧ x.ip_address = y.ip_address ∧
  x.mac_address = y.mac_address ∧ x.serial_number = y.serial_number ∧
  x.agent_id = y.agent_id ∧ x.operating_system = y.operating_system ∧
  x.os_version = y.os_version ∧ x.asset_type = y.asset_type ∧
  x.agent_status = y.agent_status ∧ x.policy_status = y.policy_status ∧
  x.isolation_status = y.isolation_status ∧
  x.present_in_sources = y.present_in_sources ∧
  x.absent_from_sources = y.absent_from_sources ∧
  x.vulnerability_count = y.vulnerability_count ∧
  x.critical_vuln_count = y.critical_vuln_count ∧
  x.high_vuln_count = y.high_vuln_count ∧
  x.source_records = y.source_records

/-- Whether an owner mapping finds a match against the given store. -/
def ownerMatched (st : Store) (m : ParsedOwnerMapping) : Bool :=
  match findMatch st (buildKey none m.ip_address none none none) with
  | some r => r.matched
  | none => false

/-- Pairwise non-overlap of the surviving correlation keys. -/
def PairwiseDisjointKeys (l : List EnrichedAsset) : Prop :=
  l.Pairwise fun x y => x.correlation_key.overlaps y.correlation_key = false

/-- Pointwise order on the three vulnerability counters. -/
def cntLE (x y : EnrichedAsset) : Prop :=
  x.vulnerability_count ≤ y.vulnerability_count ∧
  x.critical_vuln_count ≤ y.critical_vuln_count ∧
  x.high_vuln_count ≤ y.high_vuln_count

/-- Total `vulnerability_count` over a store's assets. -/
def sumVuln (l : List EnrichedAsset) : Nat :=
  (l.map (·.vulnerability_count)).sum

/-- Total `critical_vuln_count` over a store's assets. -/
def sumCrit (l : List EnrichedAsset) : Nat :=
  (l.map (·.critical_vuln_count)).sum

/-- Total `high_vuln_count` over a store's assets. -/
def sumHigh (l : List EnrichedAsset) : Nat :=
  (l.map (·.high_vuln_count)).sum

/-! ## Basic lemmas about provenance slots -/

/-- Reading back the slot just written. -/
theorem getF_setF (a : EnrichedAsset) (f : FieldName) (p : Option FieldProvenance) :
    (a.setF f p).getF f = p := by
  cases f <;> rfl

/-- Unfolding of `set_field` on a present value. -/
theorem set_field_some_eq (a : EnrichedAsset) (f : FieldName) (v s : String) (c : ℚ)
    (ts : Option Nat) :
    a.set_field f (some v) s c ts =
      match a.getF f with
      | none => a.setF f (some ⟨v, s, ts, c⟩)
      | some current =>
        if c > current.confidence then a.setF f (some ⟨v, s, ts, c⟩) else a := by
  rfl

/-- C2: `set_field` replaces the stored provenance exactly when the field is
empty or the new confidence is strictly greater; it is a no-op on an absent
value and on equal or lower confidence; consequently, two writes with
confidences d1 < d2 on an empty field leave, in either order, the value and
source supplied with d2. -/
theorem set_field_confidence_arbitration (a : EnrichedAsset) (f : FieldName)
    (v s : String) (c : ℚ) :
    (a.set_field f none s c = a) ∧
    (a.getF f = none →
      a.set_field f (some v) s c = a.setF f (some ⟨v, s, none, c⟩)) ∧
    (∀ cur, a.getF f = some cur → c > cur.confidence →
      a.set_field f (some v) s c = a.setF f (some ⟨v, s, none, c⟩)) ∧
    (∀ cur, a.getF f = some cur → c ≤ cur.confidence →
      a.set_field f (some v) s c = a) ∧
    (∀ v1 s1 d1 v2 s2 d2, d1 < d2 → a.getF f = none →
      ((a.set_field f (some v1) s1 d1).set_field f (some v2) s2 d2).getF f =
          some ⟨v2, s2, none, d2⟩ ∧
      ((a.set_field f (some v2) s2 d2).set_field f (some v1) s1 d1).getF f =
          some ⟨v2, s2, none, d2⟩) := by
  refine ⟨rfl, ?_, ?_, ?_, ?_⟩
  · intro h
    rw [set_field_some_eq, h]
  · intro cur h hgt
    rw [set_field_some_eq, h]
    simp [hgt]
  · intro cur h hle
    rw [set_field_some_eq, h]
    simp [not_lt.mpr hle]
  · intro v1 s1 d1 v2 s2 d2 hlt h
    constructor
    · rw [set_field_some_eq a, h, set_field_some_eq, getF_setF]
      simp [hlt, getF_setF]
    · rw [set_field_some_eq a, h, set_field_some_eq, getF_setF]
      simp [not_lt.mpr hlt.le, getF_setF]

/-- Witness for C2 at concrete inputs: a qualys write at confidence 0.8
then a crowdstrike write at confidence 0.95 on a fresh field leaves the
crowdstrike value, and so does the reverse order. -/
theorem set_field_confidence_arbitration_witness :
    ((({} : EnrichedAsset).set_field .hostname (some "web01") "qualys" 0.8).set_field
        .hostname (some "web01b") "crowdstrike" 0.95).getF .hostname =
      some ⟨"web01b", "crowdstrike", none, 0.95⟩ ∧
    ((({} : EnrichedAsset).set_field .hostname (some "web01b") "crowdstrike" 0.95).set_field
        .hostname (some "web01") "qualys" 0.8).getF .hostname =
      some ⟨"web01b", "crowdstrike", none, 0.95⟩ :=
  (set_field_confidence_arbitration {} .hostname "x" "s" 0).2.2.2.2
    "web01" "qualys" 0.8 "web01b" "crowdstrike" 0.95 (by norm_num) rfl

end Secimport

namespace Secimport

/-! ## Gap analysis lemmas -/

/-- Partition counts of the gap-analysis fold, relative to any initial
report. -/
theorem gapFold_lengths (a b : String) :
    ∀ (l : List EnrichedAsset) (g : GapReport),
      (l.foldl (gapStep a b) g).in_both.length
          = g.in_both.length + l.countP (fun x => inSrc a x && inSrc b x) ∧
      (l.foldl (gapStep a b) g).in_a_not_b.length
          = g.in_a_not_b.length + l.countP (fun x => inSrc a x && !inSrc b x) ∧
      (l.foldl (gapStep a b) g).in_b_not_a.length
          = g.in_b_not_a.length + l.countP (fun x => !inSrc a x && inSrc b x)
  | [], g => by simp
  | x :: l, g => by
      obtain ⟨ih1, ih2, ih3⟩ := gapFold_lengths a b l (gapStep a b g x)
      simp only [List.foldl_cons]
      rw [ih1, ih2, ih3]
      by_cases ha : a ∈ x.present_in_sources <;> by_cases hb : b ∈ x.present_in_sources <;>
        · refine ⟨?_, ?_, ?_⟩ <;>
          · simp [gapStep, inSrc, List.countP_cons, ha, hb]
            try omega

end Secimport

namespace Secimport

/-- The three partition counts of a gap report. -/
theorem gap_analysis_lengths (st : Store) (a b : String) :
    (gap_analysis st a b).in_both.length
        = st.assets.countP (fun x => inSrc a x && inSrc b x) ∧
    (gap_analysis st a b).in_a_not_b.length
        = st.assets.countP (fun x => inSrc a x && !inSrc b x) ∧
    (gap_analysis st a b).in_b_not_a.length
        = st.assets.countP (fun x => !inSrc a x && inSrc b x) := by
  have h := gapFold_lengths a b st.assets { source_a := a, source_b := b }
  simpa [gap_analysis] using h

/-- Some asset carries source `a` exactly when the two a-side partition
counts are not both zero. -/
theorem exists_inSrc_iff (l : List EnrichedAsset) (a b : String) :
    (∃ x ∈ l, a ∈ x.present_in_sources) ↔
      l.countP (fun x => inSrc a x && inSrc b x) +
        l.countP (fun x => inSrc a x && !inSrc b x) ≠ 0 := by
  constructor
  · rintro ⟨x, hx, hax⟩
    by_cases hbx : b ∈ x.present_in_sources
    · have : 0 < l.countP (fun x => inSrc a x && inSrc b x) :=
        List.countP_pos_iff.mpr ⟨x, hx, by simp [inSrc, hax, hbx]⟩
      omega
    · have : 0 < l.countP (fun x => inSrc a x && !inSrc b x) :=
        List.countP_pos_iff.mpr ⟨x, hx, by simp [inSrc, hax, hbx]⟩
      omega
  · intro h
    by_cases h1 : l.countP (fun x => inSrc a x && inSrc b x) = 0
    · have h2 : l.countP (fun x => inSrc a x && !inSrc b x) ≠ 0 := by omega
      obtain ⟨x, hx, hpx⟩ := List.countP_pos_iff.mp (Nat.pos_of_ne_zero h2)
      simp only [inSrc, Bool.and_eq_true, decide_eq_true_eq] at hpx
      exact ⟨x, hx, hpx.1⟩
    · obtain ⟨x, hx, hpx⟩ := List.countP_pos_iff.mp (Nat.pos_of_ne_zero h1)
      simp only [inSrc, Bool.and_eq_true, decide_eq_true_eq] at hpx
      exact ⟨x, hx, hpx.1⟩

end Secimport

namespace Secimport

/-- C8 (amended): `coverage_a_to_b` equals |in_both| / (|in_both| + |in_a_not_b|)
when that denominator is non-zero and 0 when it is zero; it always lies in
[0, 1]; and it equals 1 exactly when at least one asset is present in source
a and every asset present in a is also present in b (with no asset present
in a the coverage is 0, not 1). -/
theorem coverage_a_to_b_spec (st : Store) (a b : String) :
    ((gap_analysis st a b).total_a = 0 → (gap_analysis st a b).coverage_a_to_b = 0) ∧
    ((gap_analysis st a b).total_a ≠ 0 →
      (gap_analysis st a b).coverage_a_to_b =
        ((gap_analysis st a b).in_both.length : ℚ) /
          (((gap_analysis st a b).in_both.length : ℚ) +
            ((gap_analysis st a b).in_a_not_b.length : ℚ))) ∧
    0 ≤ (gap_analysis st a b).coverage_a_to_b ∧
    (gap_analysis st a b).coverage_a_to_b ≤ 1 ∧
    ((gap_analysis st a b).coverage_a_to_b = 1 ↔
      ((∃ x ∈ st.assets, a ∈ x.present_in_sources) ∧
        ∀ x ∈ st.assets, a ∈ x.present_in_sources → b ∈ x.present_in_sources)) := by
  obtain ⟨h1, h2, h3⟩ := gap_analysis_lengths st a b
  have htot : (gap_analysis st a b).total_a
      = st.assets.countP (fun x => inSrc a x && !inSrc b x)
        + st.assets.countP (fun x => inSrc a x && inSrc b x) := by
    rw [GapReport.total_a, h1, h2]
  set cb := st.assets.countP (fun x => inSrc a x && inSrc b x) with hcb
  set ca := st.assets.countP (fun x => inSrc a x && !inSrc b x) with hca
  have hcov : (gap_analysis st a b).coverage_a_to_b
      = if ca + cb = 0 then 0 else (cb : ℚ) / (((ca + cb : Nat)) : ℚ) := by
    rw [GapReport.coverage_a_to_b, htot, h1]
  refine ⟨?_, ?_, ?_, ?_, ?_⟩
  · intro h0
    rw [hcov, if_pos]
    omega
  · intro h0
    rw [htot] at h0
    rw [hcov, if_neg h0, h1, h2]
    push_cast
    ring_nf
  · rw [hcov]
    split
    · exact le_refl 0
    · positivity
  · rw [hcov]
    split
    · exact zero_le_one
    · rename_i hne
      rw [div_le_one (by positivity)]
      exact_mod_cast Nat.le_add_left cb ca
  · rw [hcov]
    constructor
    · intro hone
      by_cases h0 : ca + cb = 0
      · rw [if_pos h0] at hone
        exact absurd hone (by norm_num)
      · rw [if_neg h0] at hone
        have hd : ((ca + cb : Nat) : ℚ) ≠ 0 := by exact_mod_cast h0
        rw [div_eq_one_iff_eq hd] at hone
        have hca0 : ca = 0 := by
          have hq := hone
          push_cast at hq
          have hq2 : (ca : ℚ) = 0 := by linarith
          exact_mod_cast hq2
        have hcbne : cb ≠ 0 := by omega
        constructor
        · exact (exists_inSrc_iff st.assets a b).mpr (by omega)
        · intro x hx hax
          by_contra hbx
          have : 0 < ca :=
            List.countP_pos_iff.mpr ⟨x, hx, by simp [inSrc, hax, hbx]⟩
          omega
    · rintro ⟨hex, hall⟩
      have hca0 : ca = 0 := by
        rw [hca, List.countP_eq_zero]
        intro x hx hpx
        simp only [inSrc, Bool.and_eq_true, Bool.not_eq_true', decide_eq_true_eq,
          decide_eq_false_iff_not] at hpx
        exact hpx.2 (hall x hx hpx.1)
      have hcbne : cb + ca ≠ 0 := (exists_inSrc_iff st.assets a b).mp hex
      have h0 : ca + cb ≠ 0 := by omega
      rw [if_neg h0]
      have hq : ((ca + cb : Nat) : ℚ) = (cb : ℚ) := by
        rw [hca0]
        push_cast
        ring
      rw [hq, div_self (by exact_mod_cast (by omega : cb ≠ 0))]

end Secimport

namespace Secimport

/-- C8 counterexample: on the empty store `coverage_a_to_b` is 0 although
(vacuously) every asset present in "a" is also present in "b", so the
claimed plain biconditional fails. -/
theorem coverage_iff_counterexample :
    ¬ ((gap_analysis emptyStore "a" "b").coverage_a_to_b = 1 ↔
        ∀ x ∈ emptyStore.assets, "a" ∈ x.present_in_sources →
          "b" ∈ x.present_in_sources) := by
  intro h
  have h2 : (gap_analysis emptyStore "a" "b").coverage_a_to_b = 1 :=
    h.mpr (by intro x hx; simp [emptyStore] at hx)
  have h3 : (gap_analysis emptyStore "a" "b").coverage_a_to_b = 0 := by
    norm_num [gap_analysis, emptyStore, GapReport.coverage_a_to_b, GapReport.total_a]
  rw [h2] at h3
  exact one_ne_zero h3

/-- Witness for C8 at a concrete input: a single asset present in both
sources gives coverage 1. -/
theorem coverage_a_to_b_spec_witness :
    (gap_analysis
        { assets := [{ present_in_sources := ["a", "b"] }] } "a" "b").coverage_a_to_b
      = 1 :=
  (coverage_a_to_b_spec { assets := [{ present_in_sources := ["a", "b"] }] }
      "a" "b").2.2.2.2.mpr
    ⟨⟨_, List.mem_singleton.mpr rfl, by simp⟩, by
      intro x hx hax
      rw [List.mem_singleton] at hx
      subst hx
      simp⟩

end Secimport

namespace Secimport

/-! ## Matcher lemmas -/

/-- The match weight of every identifier type is positive. -/
theorem MatchWeights_get_pos (t : String) : 0 < MatchWeights.get t := by
  unfold MatchWeights.get MatchWeights.WEIGHTS
  simp only [List.lookup]
  repeat' split
  all_goals norm_num

/-- Invariant of the matcher scan: a missing best has zero confidence, and
any recorded best position is within bounds. -/
def MGood (n : Nat) (s : MState) : Prop :=
  (s.best_idx = none → s.best_confidence = 0) ∧
  (∀ i, s.best_idx = some i → i < n)

/-- Values absent from the index leave the scan state unchanged. -/
theorem foldVals_id (t : String) (m : IdxMap) :
    ∀ (vs : List String) (s : MState), (∀ v ∈ vs, m.lookup v = none) →
      vs.foldlM (stepVal t m) s = some s
  | [], s, _ => rfl
  | v :: vs, s, h => by
      have hv : m.lookup v = none := h v (by simp)
      have hrest := foldVals_id t m vs s fun w hw => h w (by simp [hw])
      simp only [List.foldlM_cons, stepVal, hv]
      exact hrest

/-- Membership from a successful association-list lookup. -/
theorem lookup_mem {β : Type} : ∀ (l : List (String × β)) (k : String) (v : β),
    l.lookup k = some v → (k, v) ∈ l
  | [], k, v, h => by simp [List.lookup] at h
  | (k', v') :: rest, k, v, h => by
      by_cases hk : k = k'
      · subst hk
        simp only [List.lookup, beq_self_eq_true] at h
        simp only [Option.some.injEq] at h
        simp [h]
      · have hkk : (k == k') = false := beq_eq_false_iff_ne.mpr hk
        simp only [List.lookup, hkk] at h
        exact List.mem_cons_of_mem _ (lookup_mem rest k v h)

/-- One scan step under a well-formed index: it succeeds, preserves the
invariant, never drops a recorded best, records a best on an index hit,
and does nothing on a miss. -/
theorem stepVal_progress (t : String) (m : IdxMap) (n : Nat) (hm : IdxWF m n)
    (s : MState) (v : String) (hs : MGood n s) :
    ∃ s', stepVal t m s v = some s' ∧ MGood n s' ∧
      (s.best_idx.isSome → s'.best_idx.isSome) ∧
      ((m.lookup v).isSome → s'.best_idx.isSome) ∧
      (m.lookup v = none → s' = s) := by
  rcases hl : m.lookup v with _ | l
  · exact ⟨s, by simp [stepVal, hl], hs, fun h => h, by simp, fun _ => rfl⟩
  · have hlm : (v, l) ∈ m := lookup_mem m v l hl
    obtain ⟨hne, hnd, hbd⟩ := hm (v, l) hlm
    rcases l with _ | ⟨p, l'⟩
    · exact absurd rfl hne
    · by_cases hgt : MatchWeights.get t > s.best_confidence
      · refine ⟨{ best_idx := some p,
                  best_confidence := MatchWeights.get t,
                  matched_on := [t] }, ?_, ?_, by simp, by simp, ?_⟩
        · simp [stepVal, hl, hgt]
        · refine ⟨by simp, fun i hi => ?_⟩
          simp only [Option.some.injEq] at hi
          exact hi ▸ hbd p (by simp)
        · intro h
          exact absurd h (by simp)
      · have hsome : (m.lookup v).isSome → s.best_idx.isSome := by
          intro
          by_contra hnone2
          rw [Option.not_isSome_iff_eq_none] at hnone2
          have h0 : s.best_confidence = 0 := hs.1 hnone2
          have hle : MatchWeights.get t ≤ s.best_confidence := not_lt.mp hgt
          rw [h0] at hle
          exact absurd hle (not_le.mpr (MatchWeights_get_pos t))
        by_cases heq : MatchWeights.get t = s.best_confidence ∧ s.best_idx.isSome
        · refine ⟨{ s with matched_on := s.matched_on ++ [t] }, ?_,
            ⟨fun h => hs.1 h, fun i hi => hs.2 i hi⟩, by simp, ?_, ?_⟩
          · simp [stepVal, hl, hgt, heq]
          · intro _
            exact heq.2
          · intro h
            exact absurd h (by simp)
        · refine ⟨s, ?_, hs, fun h => h, fun _ => hsome (by simp [hl]), fun _ => rfl⟩
          simp [stepVal, hl, hgt, heq]

end Secimport

namespace Secimport

/-- The inner value loop of the matcher under a well-formed index. -/
theorem foldVals_progress (t : String) (m : IdxMap) (n : Nat) (hm : IdxWF m n) :
    ∀ (vs : List String) (s : MState), MGood n s →
      ∃ s', vs.foldlM (stepVal t m) s = some s' ∧ MGood n s' ∧
        (s.best_idx.isSome → s'.best_idx.isSome) ∧
        ((∃ v ∈ vs, (m.lookup v).isSome) → s'.best_idx.isSome) ∧
        ((∀ v ∈ vs, m.lookup v = none) → s' = s)
  | [], s, hs =>
      ⟨s, rfl, hs, fun h => h, by rintro ⟨v, hv, _⟩; simp at hv, fun _ => rfl⟩
  | v :: vs, s, hs => by
      obtain ⟨s1, hstep, hg1, hmono1, hhit1, hid1⟩ := stepVal_progress t m n hm s v hs
      obtain ⟨s2, hfold, hg2, hmono2, hhit2, hid2⟩ := foldVals_progress t m n hm vs s1 hg1
      refine ⟨s2, ?_, hg2, fun h => hmono2 (hmono1 h), ?_, ?_⟩
      · rw [List.foldlM_cons, hstep]
        exact hfold
      · rintro ⟨w, hw, hws⟩
        rcases List.mem_cons.mp hw with hwv | hwvs
        · exact hmono2 (hhit1 (hwv ▸ hws))
        · exact hhit2 ⟨w, hwvs, hws⟩
      · intro hall
        have h1 : s1 = s := hid1 (hall v (by simp))
        have h2 : s2 = s1 := hid2 fun w hw => hall w (by simp [hw])
        rw [h2, h1]

/-- The matcher scan over all five identifier types, under a well-formed
store: it succeeds, the final best position is in bounds, a best exists
exactly when the key is not novel, and on a fully novel key the scan state
is untouched. -/
theorem findMatch_scan (st : Store) (k : CorrelationKey) (h : Store.WF st) :
    ∃ s', (matchOrder st k).foldlM stepType ({} : MState) = some s' ∧
      MGood st.assets.length s' ∧
      (s'.best_idx.isSome ↔ ¬ NovelKey st k) := by
  obtain ⟨hH, hI, hM, hS, hA⟩ := h
  have init : MGood st.assets.length ({} : MState) := ⟨fun _ => rfl, by simp⟩
  obtain ⟨s1, e1, g1, mono1, hit1, id1⟩ :=
    foldVals_progress "agent_id" st.agent_id_idx _ hA k.agent_ids {} init
  obtain ⟨s2, e2, g2, mono2, hit2, id2⟩ :=
    foldVals_progress "serial_number" st.serial_idx _ hS k.serial_numbers s1 g1
  obtain ⟨s3, e3, g3, mono3, hit3, id3⟩ :=
    foldVals_progress "mac_address" st.mac_idx _ hM k.mac_addresses s2 g2
  obtain ⟨s4, e4, g4, mono4, hit4, id4⟩ :=
    foldVals_progress "hostname" st.hostname_idx _ hH k.hostnames s3 g3
  obtain ⟨s5, e5, g5, mono5, hit5, id5⟩ :=
    foldVals_progress "ip_address" st.ip_idx _ hI k.ip_addresses s4 g4
  refine ⟨s5, ?_, g5, ?_, ?_⟩
  · simp only [matchOrder, List.foldlM_cons, List.foldlM_nil, stepType,
      Option.bind_eq_bind]
    rw [e1]
    simp only [Option.some_bind]
    rw [e2]
    simp only [Option.some_bind]
    rw [e3]
    simp only [Option.some_bind]
    rw [e4]
    simp only [Option.some_bind]
    rw [e5]
    rfl
  · intro hsome hnov
    obtain ⟨n1, n2, n3, n4, n5⟩ := hnov
    have h1 : s1 = {} := id1 n5
    have h2 : s2 = {} := h1 ▸ id2 n4
    have h3 : s3 = {} := h2 ▸ id3 n3
    have h4 : s4 = {} := h3 ▸ id4 n1
    have h5 : s5 = {} := h4 ▸ id5 n2
    rw [h5] at hsome
    simp at hsome
  · intro hnnov
    rw [NovelKey, not_and_or, not_and_or, not_and_or, not_and_or] at hnnov
    have toHit : ∀ (m : IdxMap) (vs : List String),
        (¬ ∀ v ∈ vs, m.lookup v = none) → ∃ v ∈ vs, (m.lookup v).isSome := by
      intro m vs hv
      push_neg at hv
      obtain ⟨v, hvm, hvn⟩ := hv
      exact ⟨v, hvm, Option.ne_none_iff_isSome.mp hvn⟩
    rcases hnnov with h' | h' | h' | h' | h'
    · exact mono5 (hit4 (toHit _ _ h'))
    · exact hit5 (toHit _ _ h')
    · exact mono5 (mono4 (hit3 (toHit _ _ h')))
    · exact mono5 (mono4 (mono3 (hit2 (toHit _ _ h'))))
    · exact mono5 (mono4 (mono3 (mono2 (hit1 (toHit _ _ h')))))

end Secimport

namespace Secimport

/-- `_find_match` under a well-formed store: it returns a result whose
index is in bounds, and it reports a match exactly when some identifier
value of the key occurs in an index. -/
theorem findMatch_wf (st : Store) (k : CorrelationKey) (h : Store.WF st) :
    ∃ r, findMatch st k = some r ∧
      (∀ i, r.enriched_asset_index = some i → i < st.assets.length) ∧
      (r.matched = true ↔ ¬ NovelKey st k) ∧
      (r.matched = false → r = {}) ∧
      (r.matched = true → r.enriched_asset_index.isSome) := by
  obtain ⟨s', hfold, hg, hiff⟩ := findMatch_scan st k h
  rcases hb : s'.best_idx with _ | i
  · refine ⟨{}, ?_, ?_, ?_, fun _ => rfl, ?_⟩
    · rw [findMatch, hfold]
      simp [hb]
    · intro i hi
      exact absurd hi (by simp)
    · constructor
      · intro hm
        exact absurd hm (by simp)
      · intro hn
        have := hiff.mpr hn
        rw [hb] at this
        exact absurd this (by simp)
    · intro hm
      exact absurd hm (by simp)
  · refine ⟨{
      matched := true, confidence := s'.best_confidence,
      matched_on := s'.matched_on, enriched_asset_index := s'.best_idx }, ?_, ?_, ?_, ?_, ?_⟩
    · rw [findMatch, hfold]
      simp [hb]
    · intro j hj
      exact hg.2 j hj
    · simp only [true_iff]
      exact hiff.mp (by simp [hb])
    · intro hm
      exact absurd hm (by simp)
    · intro _
      simp [hb]

/-- An entirely novel key produces the default no-match result, on any
store. -/
theorem findMatch_novel (st : Store) (k : CorrelationKey) (h : NovelKey st k) :
    findMatch st k = some {} := by
  obtain ⟨n1, n2, n3, n4, n5⟩ := h
  have e1 := foldVals_id "agent_id" st.agent_id_idx k.agent_ids {} n5
  have e2 := foldVals_id "serial_number" st.serial_idx k.serial_numbers {} n4
  have e3 := foldVals_id "mac_address" st.mac_idx k.mac_addresses {} n3
  have e4 := foldVals_id "hostname" st.hostname_idx k.hostnames {} n1
  have e5 := foldVals_id "ip_address" st.ip_idx k.ip_addresses {} n2
  rw [findMatch]
  simp only [matchOrder, List.foldlM_cons, List.foldlM_nil, stepType,
    Option.bind_eq_bind]
  rw [e1]
  simp only [Option.some_bind]
  rw [e2]
  simp only [Option.some_bind]
  rw [e3]
  simp only [Option.some_bind]
  rw [e4]
  simp only [Option.some_bind]
  rw [e5]
  rfl

end Secimport

namespace Secimport

/-- C5: the matcher's weight table is agent_id 0.99 > serial_number 0.95 >
mac_address 0.90 > hostname 0.85 > ip_address 0.70 with unknown types
defaulting to 0.5; `_find_match` scans the five identifier types in exactly
this descending order; each indexed value whose type weight strictly
exceeds the running best replaces the chosen position with the first
position recorded for that value and resets the matched-on list to just
that type, an equal weight (with a best already chosen) only appends the
type, and a lower weight changes nothing; and under a well-formed store the
result reports no match exactly when no identifier value of the key occurs
in any index. -/
theorem find_match_spec :
    (MatchWeights.get "agent_id" = 0.99 ∧ MatchWeights.get "serial_number" = 0.95 ∧
      MatchWeights.get "mac_address" = 0.90 ∧ MatchWeights.get "hostname" = 0.85 ∧
      MatchWeights.get "ip_address" = 0.70 ∧
      (∀ t, t ∉ ["agent_id", "serial_number", "mac_address", "hostname", "ip_address"] →
        MatchWeights.get t = 0.5)) ∧
    (∀ st k, matchOrder st k =
      [("agent_id", k.agent_ids, st.agent_id_idx),
       ("serial_number", k.serial_numbers, st.serial_idx),
       ("mac_address", k.mac_addresses, st.mac_idx),
       ("hostname", k.hostnames, st.hostname_idx),
       ("ip_address", k.ip_addresses, st.ip_idx)] ∧
      findMatch st k = ((matchOrder st k).foldlM stepType {}).map fun s =>
        match s.best_idx with
        | some _ => { matched := true, confidence := s.best_confidence,
                      matched_on := s.matched_on,
                      enriched_asset_index := s.best_idx }
        | none => {}) ∧
    (∀ (t : String) (m : IdxMap) (s : MState) (v : String),
      (m.lookup v = none → stepVal t m s v = some s) ∧
      (∀ l, m.lookup v = some l → MatchWeights.get t > s.best_confidence →
        stepVal t m s v = (l.head?).map fun p =>
          { best_idx := some p, best_confidence := MatchWeights.get t,
            matched_on := [t] }) ∧
      (∀ l, m.lookup v = some l → MatchWeights.get t = s.best_confidence →
        s.best_idx.isSome →
        stepVal t m s v = some { s with matched_on := s.matched_on ++ [t] }) ∧
      (∀ l, m.lookup v = some l → MatchWeights.get t < s.best_confidence →
        stepVal t m s v = some s)) ∧
    (∀ st k, Store.WF st → ∃ r, findMatch st k = some r ∧
      (r.matched = false ↔ NovelKey st k) ∧
      (r.matched = false → r = {})) := by
  have wtab : ∀ t, MatchWeights.get t = ((MatchWeights.WEIGHTS.lookup t).getD (mkRat 5 10)) :=
    fun t => rfl
  refine ⟨⟨?_, ?_, ?_, ?_, ?_, ?_⟩, ?_, ?_, ?_⟩
  · rw [wtab, show MatchWeights.WEIGHTS.lookup "agent_id" = some (mkRat 99 100) from rfl]
    norm_num [Rat.mkRat_eq_div]
  · rw [wtab, show MatchWeights.WEIGHTS.lookup "serial_number" = some (mkRat 95 100) from rfl]
    norm_num [Rat.mkRat_eq_div]
  · rw [wtab, show MatchWeights.WEIGHTS.lookup "mac_address" = some (mkRat 90 100) from rfl]
    norm_num [Rat.mkRat_eq_div]
  · rw [wtab, show MatchWeights.WEIGHTS.lookup "hostname" = some (mkRat 85 100) from rfl]
    norm_num [Rat.mkRat_eq_div]
  · rw [wtab, show MatchWeights.WEIGHTS.lookup "ip_address" = some (mkRat 70 100) from rfl]
    norm_num [Rat.mkRat_eq_div]
  · intro t ht
    simp only [List.mem_cons, List.not_mem_nil, or_false, not_or] at ht
    obtain ⟨h1, h2, h3, h4, h5⟩ := ht
    rw [wtab]
    simp [MatchWeights.WEIGHTS, List.lookup,
      beq_eq_false_iff_ne.mpr h1, beq_eq_false_iff_ne.mpr h2,
      beq_eq_false_iff_ne.mpr h3, beq_eq_false_iff_ne.mpr h4,
      beq_eq_false_iff_ne.mpr h5]
    norm_num [Rat.mkRat_eq_div]
  · intro st k
    exact ⟨rfl, rfl⟩
  · intro t m s v
    refine ⟨?_, ?_, ?_, ?_⟩
    · intro h
      simp [stepVal, h]
    · intro l hl hgt
      cases l <;> simp [stepVal, hl, hgt]
    · intro l hl heqw hsome
      simp [stepVal, hl, not_lt.mpr heqw.le, lt_irrefl, heqw, hsome]
    · intro l hl hlt
      have hne : ¬(MatchWeights.get t = s.best_confidence ∧ s.best_idx.isSome) := by
        rintro ⟨h1, _⟩
        exact absurd (h1 ▸ hlt) (lt_irrefl _)
      simp [stepVal, hl, not_lt.mpr hlt.le, hne]
  · intro st k hwf
    obtain ⟨r, hr, _, hiff, hdef, _⟩ := findMatch_wf st k hwf
    refine ⟨r, hr, ?_, hdef⟩
    constructor
    · intro hm
      by_contra hnov
      have h2 := hiff.mpr hnov
      rw [h2] at hm
      simp at hm
    · intro hnov
      rcases hb : r.matched with _ | _
      · rfl
      · exact absurd (hiff.mp hb) (not_not_intro hnov)

end Secimport

namespace Secimport

/-- Witness for C5 at a concrete store: one asset indexed under hostname
"web01"; looking up a key carrying that hostname reports a match. -/
theorem find_match_spec_witness :
    ∃ r, findMatch
        { assets := [{}], hostname_idx := [("web01", [0])] }
        { hostnames := ["web01"] } = some r ∧
      (r.matched = false ↔ NovelKey
        { assets := [{}], hostname_idx := [("web01", [0])] }
        { hostnames := ["web01"] }) ∧
      (r.matched = false → r = ({} : MatchResult)) :=
  find_match_spec.2.2.2
    { assets := [{}], hostname_idx := [("web01", [0])] }
    { hostnames := ["web01"] }
    (by
      refine ⟨?_, ?_, ?_, ?_, ?_⟩ <;>
        · unfold IdxWF
          decide)

end Secimport

namespace Secimport

/-! ## Index update lemmas -/

/-- Entries of an updated association list. -/
theorem alSet_mem {α : Type} : ∀ (m : List (String × α)) (k : String) (v : α)
    (q : String × α), q ∈ alSet m k v → q ∈ m ∨ q = (k, v)
  | [], k, v, q, hq => by
      simp [alSet] at hq
      exact Or.inr hq
  | (k', v') :: rest, k, v, q, hq => by
      rw [alSet] at hq
      by_cases hk : k' = k
      · rw [if_pos hk] at hq
        rcases List.mem_cons.mp hq with h | h
        · exact Or.inr (by rw [h, hk])
        · exact Or.inl (List.mem_cons_of_mem _ h)
      · rw [if_neg hk] at hq
        rcases List.mem_cons.mp hq with h | h
        · exact Or.inl (h ▸ List.mem_cons_self _ _)
        · rcases alSet_mem rest k v q h with h2 | h2
          · exact Or.inl (List.mem_cons_of_mem _ h2)
          · exact Or.inr h2

/-- A larger bound keeps an index well-formed. -/
theorem IdxWF.mono {m : IdxMap} {n n' : Nat} (hm : IdxWF m n) (hn : n ≤ n') :
    IdxWF m n' := fun p hp =>
  ⟨(hm p hp).1, (hm p hp).2.1, fun i hi => lt_of_lt_of_le ((hm p hp).2.2 i hi) hn⟩

/-- Registering one in-bounds position keeps an index well-formed. -/
theorem idxAdd_wf (m : IdxMap) (n : Nat) (hm : IdxWF m n) (v : String) (pos : Nat)
    (hp : pos < n) : IdxWF (idxAdd m v pos) n := by
  rw [idxAdd]
  split
  next l hl =>
    by_cases hmem : pos ∈ l
    · rw [if_pos hmem]
      exact hm
    · rw [if_neg hmem]
      intro q hq
      rcases alSet_mem m v (l ++ [pos]) q hq with h | h
      · exact hm q h
      · obtain ⟨hne, hnd, hbd⟩ := hm (v, l) (lookup_mem m v l hl)
        rw [h]
        refine ⟨by simp, ?_, ?_⟩
        · simp only [List.nodup_append, List.nodup_cons, List.not_mem_nil,
            not_false_iff, List.nodup_nil, and_true, true_and]
          refine ⟨hnd, ?_⟩
          intro x hx
          simp only [List.mem_singleton]
          intro hxp
          exact hmem (hxp ▸ hx)
        · intro i hi
          rcases List.mem_append.mp hi with h2 | h2
          · exact hbd i h2
          · rw [List.mem_singleton.mp h2]
            exact hp
  next hl =>
    intro q hq
    rcases List.mem_append.mp hq with h | h
    · exact hm q h
    · rw [List.mem_singleton.mp h]
      exact ⟨by simp, by simp, by simpa using hp⟩

/-- Registering a set of values keeps an index well-formed. -/
theorem idxAddAll_wf (vals : List String) (m : IdxMap) (n : Nat) (hm : IdxWF m n)
    (pos : Nat) (hp : pos < n) : IdxWF (idxAddAll m vals pos) n := by
  induction vals generalizing m with
  | nil => exact hm
  | cons v vs ih => exact ih (idxAdd m v pos) (idxAdd_wf m n hm v pos hp)

/-- `_update_indexes` keeps the store well-formed when the position is in
bounds. -/
theorem updateIndexes_wf (st : Store) (pos : Nat) (k : CorrelationKey)
    (h : Store.WF st) (hp : pos < st.assets.length) :
    Store.WF (st.updateIndexes pos k) := by
  obtain ⟨h1, h2, h3, h4, h5⟩ := h
  exact ⟨idxAddAll_wf _ _ _ h1 pos hp, idxAddAll_wf _ _ _ h2 pos hp,
    idxAddAll_wf _ _ _ h3 pos hp, idxAddAll_wf _ _ _ h4 pos hp,
    idxAddAll_wf _ _ _ h5 pos hp⟩

/-- Setting the slot just past a snoc overwrites the appended element. -/
theorem set_append_last {α : Type} (l : List α) (x y : α) :
    (l ++ [x]).set l.length y = l ++ [y] := by
  induction l with
  | nil => rfl
  | cons a as ih => simp [List.set, ih]

end Secimport

namespace Secimport

/-- Characterization of the get-or-create step under the matcher's
guarantees: it succeeds, and either fetches the matched in-bounds asset or
appends a fresh one. -/
theorem getOrCreate_ok (st : Store) (r : MatchResult)
    (hb : ∀ i, r.enriched_asset_index = some i → i < st.assets.length)
    (hms : r.matched = true → r.enriched_asset_index.isSome) :
    ∃ g, getOrCreate st r = some g ∧
      ((∃ i, r.enriched_asset_index = some i ∧ g.1 = i ∧ i < st.assets.length ∧
          st.assets.get? i = some g.2.1 ∧ g.2.2 = st.assets ∧ r.matched = true) ∨
        (g.1 = st.assets.length ∧ g.2.1 = ({} : EnrichedAsset) ∧
          g.2.2 = st.assets ++ [({} : EnrichedAsset)])) := by
  rcases hm : r.matched with _ | _
  · refine ⟨(st.assets.length, ({} : EnrichedAsset),
      st.assets ++ [({} : EnrichedAsset)]), ?_, Or.inr ⟨rfl, rfl, rfl⟩⟩
    rw [getOrCreate, hm]
    simp
  · have hsome := hms hm
    rw [Option.isSome_iff_exists] at hsome
    obtain ⟨i, hi⟩ := hsome
    have hilt : i < st.assets.length := hb i hi
    have he : st.assets.get? i = some (st.assets.get ⟨i, hilt⟩) :=
      List.get?_eq_get hilt
    refine ⟨(i, st.assets.get ⟨i, hilt⟩, st.assets), ?_,
      Or.inl ⟨i, hi, rfl, hilt, he, rfl, rfl⟩⟩
    rw [getOrCreate, hm, hi]
    simp only [if_true]
    rw [he]

end Secimport

namespace Secimport

/-- Master lemma for the shared get-or-create ingestion shape (assets,
endpoints, network observations): under a well-formed store the step
succeeds, preserves well-formedness, grows the store by at most one asset,
rewrites each existing position to itself or its mutation, and every
resulting asset is an old asset, a mutated old asset, or a mutated fresh
asset. -/
theorem ingestCore_master (st : Store) (key : CorrelationKey)
    (mutate : EnrichedAsset → EnrichedAsset) (h : Store.WF st) :
    ∃ st',
      ((findMatch st key).bind fun m =>
        (getOrCreate st m).map fun g =>
          let st1 : Store := { st with assets := g.2.2.set g.1 (mutate g.2.1) }
          st1.updateIndexes (st1.assets.length - 1) key) = some st' ∧
      Store.WF st' ∧
      st.assets.length ≤ st'.assets.length ∧
      st'.assets.length ≤ st.assets.length + 1 ∧
      (∀ j b, st.assets.get? j = some b →
        ∃ b', st'.assets.get? j = some b' ∧ (b' = b ∨ b' = mutate b)) ∧
      (∀ b' ∈ st'.assets, b' ∈ st.assets ∨ (∃ b ∈ st.assets, b' = mutate b) ∨
        b' = mutate ({} : EnrichedAsset)) := by
  obtain ⟨r, hr, hbnd, _, _, hms⟩ := findMatch_wf st key h
  obtain ⟨g, hg, hcase⟩ := getOrCreate_ok st r hbnd hms
  rcases hcase with ⟨i, hi, hg1, hilt, hget, hg22, hm⟩ | ⟨hg1, hg21, hg22⟩
  · -- matched: write back to position i
    have hassets : g.2.2.set g.1 (mutate g.2.1) = st.assets.set i (mutate g.2.1) := by
      rw [hg22, hg1]
    have hlen : (st.assets.set i (mutate g.2.1)).length = st.assets.length :=
      List.length_set st.assets i (mutate g.2.1)
    have hwf1 : Store.WF { st with assets := st.assets.set i (mutate g.2.1) } := by
      obtain ⟨w1, w2, w3, w4, w5⟩ := h
      exact ⟨hlen.symm ▸ w1, hlen.symm ▸ w2, hlen.symm ▸ w3,
        hlen.symm ▸ w4, hlen.symm ▸ w5⟩
    have hpos : (st.assets.set i (mutate g.2.1)).length - 1
        < (st.assets.set i (mutate g.2.1)).length := by
      rw [hlen]
      omega
    refine ⟨Store.updateIndexes { st with assets := g.2.2.set g.1 (mutate g.2.1) }
        ((g.2.2.set g.1 (mutate g.2.1)).length - 1) key, ?_, ?_, ?_, ?_, ?_, ?_⟩
    · rw [hr, Option.some_bind', hg, Option.map_some']
    · rw [hassets]
      exact updateIndexes_wf _ _ key hwf1 hpos
    · simp only [Store.updateIndexes, hassets, hlen]
      exact le_refl _
    · simp only [Store.updateIndexes, hassets, hlen]
      omega
    · intro j b hb
      simp only [Store.updateIndexes, hassets]
      by_cases hji : j = i
      · subst hji
        have hbe : b = g.2.1 := by
          rw [hb] at hget
          exact Option.some.inj hget
        exact ⟨mutate g.2.1, List.get?_set_eq_of_lt _ hilt, Or.inr (by rw [hbe])⟩
      · exact ⟨b, by rw [List.get?_set_ne _ _ (Ne.symm hji)]; exact hb, Or.inl rfl⟩
    · intro b' hb'
      simp only [Store.updateIndexes, hassets] at hb'
      rcases List.mem_or_eq_of_mem_set hb' with h2 | h2
      · exact Or.inl h2
      · refine Or.inr (Or.inl ⟨g.2.1, ?_, h2⟩)
        have := List.get?_eq_get hilt
        have hmem : st.assets.get ⟨i, hilt⟩ ∈ st.assets := List.get_mem _ _ _
        have hbe : g.2.1 = st.assets.get ⟨i, hilt⟩ := by
          rw [this] at hget
          exact (Option.some.inj hget).symm
        rw [hbe]
        exact hmem
  · -- no match: append a fresh asset and mutate it in place
    have hassets : g.2.2.set g.1 (mutate g.2.1)
        = st.assets ++ [mutate ({} : EnrichedAsset)] := by
      rw [hg22, hg21, hg1]
      exact set_append_last st.assets ({} : EnrichedAsset) _
    have hlen : (st.assets ++ [mutate ({} : EnrichedAsset)]).length
        = st.assets.length + 1 := by simp
    have hwf1 : Store.WF { st with
        assets := st.assets ++ [mutate ({} : EnrichedAsset)] } := by
      obtain ⟨w1, w2, w3, w4, w5⟩ := h
      refine ⟨?_, ?_, ?_, ?_, ?_⟩ <;>
        · show IdxWF _ (st.assets ++ [mutate ({} : EnrichedAsset)]).length
          rw [hlen]
          first
          | exact w1.mono (by omega)
          | exact w2.mono (by omega)
          | exact w3.mono (by omega)
          | exact w4.mono (by omega)
          | exact w5.mono (by omega)
    have hpos : (st.assets ++ [mutate ({} : EnrichedAsset)]).length - 1
        < (st.assets ++ [mutate ({} : EnrichedAsset)]).length := by
      rw [hlen]
      omega
    refine ⟨Store.updateIndexes { st with assets := g.2.2.set g.1 (mutate g.2.1) }
        ((g.2.2.set g.1 (mutate g.2.1)).length - 1) key, ?_, ?_, ?_, ?_, ?_, ?_⟩
    · rw [hr, Option.some_bind', hg, Option.map_some']
    · rw [hassets]
      exact updateIndexes_wf _ _ key hwf1 hpos
    · simp only [Store.updateIndexes, hassets, hlen]
      omega
    · simp only [Store.updateIndexes, hassets, hlen]
      omega
    · intro j b hb
      simp only [Store.updateIndexes, hassets]
      have hjlt : j < st.assets.length := by
        by_contra hge
        rw [List.get?_eq_none.mpr (by omega)] at hb
        exact Option.noConfusion hb
      exact ⟨b, by rw [List.get?_append hjlt]; exact hb, Or.inl rfl⟩
    · intro b' hb'
      simp only [Store.updateIndexes, hassets] at hb'
      rcases List.mem_append.mp hb' with h2 | h2
      · exact Or.inl h2
      · exact Or.inr (Or.inr (List.mem_singleton.mp h2))

end Secimport

namespace Secimport

/-! ## Counter lemmas -/

/-- `set_field` never touches `vulnerability_count`. -/
theorem set_field_vc (a : EnrichedAsset) (f : FieldName) (v : Option String)
    (s : String) (c : ℚ) (ts : Option Nat) :
    (a.set_field f v s c ts).vulnerability_count = a.vulnerability_count := by
  cases v with
  | none => rfl
  | some v =>
    rw [set_field_some_eq]
    split
    · cases f <;> rfl
    · split
      · cases f <;> rfl
      · rfl

/-- `set_field` never touches `critical_vuln_count`. -/
theorem set_field_cc (a : EnrichedAsset) (f : FieldName) (v : Option String)
    (s : String) (c : ℚ) (ts : Option Nat) :
    (a.set_field f v s c ts).critical_vuln_count = a.critical_vuln_count := by
  cases v with
  | none => rfl
  | some v =>
    rw [set_field_some_eq]
    split
    · cases f <;> rfl
    · split
      · cases f <;> rfl
      · rfl

/-- `set_field` never touches `high_vuln_count`. -/
theorem set_field_hc (a : EnrichedAsset) (f : FieldName) (v : Option String)
    (s : String) (c : ℚ) (ts : Option Nat) :
    (a.set_field f v s c ts).high_vuln_count = a.high_vuln_count := by
  cases v with
  | none => rfl
  | some v =>
    rw [set_field_some_eq]
    split
    · cases f <;> rfl
    · split
      · cases f <;> rfl
      · rfl

/-- The asset-record mutation preserves the three counters. -/
theorem assetMutate_counters (e : EnrichedAsset) (a : ParsedAsset)
    (source : String) (confidence : ℚ) :
    (applyAssetFields e a source confidence).vulnerability_count = e.vulnerability_count ∧
    (applyAssetFields e a source confidence).critical_vuln_count = e.critical_vuln_count ∧
    (applyAssetFields e a source confidence).high_vuln_count = e.high_vuln_count := by
  simp [applyAssetFields, set_field_vc, set_field_cc, set_field_hc]

/-- The endpoint-record mutation preserves the three counters. -/
theorem endpointMutate_counters (e : EnrichedAsset) (ep : ParsedEndpoint)
    (source : String) (confidence : ℚ) :
    (applyEndpointFields e ep source confidence).vulnerability_count = e.vulnerability_count ∧
    (applyEndpointFields e ep source confidence).critical_vuln_count = e.critical_vuln_count ∧
    (applyEndpointFields e ep source confidence).high_vuln_count = e.high_vuln_count := by
  simp [applyEndpointFields, set_field_vc, set_field_cc, set_field_hc]

/-- The network-observation mutation preserves the three counters. -/
theorem netObsMutate_counters (e : EnrichedAsset) (o : ParsedNetworkObservation)
    (source : String) (confidence : ℚ) :
    (applyNetObsFields e o source confidence).vulnerability_count = e.vulnerability_count ∧
    (applyNetObsFields e o source confidence).critical_vuln_count = e.critical_vuln_count ∧
    (applyNetObsFields e o source confidence).high_vuln_count = e.high_vuln_count := by
  simp [applyNetObsFields, set_field_vc, set_field_cc, set_field_hc]

end Secimport

namespace Secimport

set_option maxHeartbeats 1600000 in
/-- `ingest_assets`, one record: succeeds on a well-formed store, keeps it
well-formed, adds at most one asset, and never changes any asset's three
vulnerability counters (new assets start at zero). -/
theorem ingestAssetOne_ok (st : Store) (a : ParsedAsset) (h : Store.WF st) :
    ∃ st', ingestAssetOne st a = some st' ∧ Store.WF st' ∧
      st.assets.length ≤ st'.assets.length ∧
      st'.assets.length ≤ st.assets.length + 1 ∧
      (∀ j b, st.assets.get? j = some b → ∃ b', st'.assets.get? j = some b' ∧
        b'.vulnerability_count = b.vulnerability_count ∧
        b'.critical_vuln_count = b.critical_vuln_count ∧
        b'.high_vuln_count = b.high_vuln_count) ∧
      (∀ b' ∈ st'.assets,
        (∃ b ∈ st.assets, b'.vulnerability_count = b.vulnerability_count ∧
          b'.critical_vuln_count = b.critical_vuln_count ∧
          b'.high_vuln_count = b.high_vuln_count) ∨
        (b'.vulnerability_count = 0 ∧ b'.critical_vuln_count = 0 ∧
          b'.high_vuln_count = 0)) := by
  obtain ⟨st', he, hwf, hlo, hhi, hpos, hmem⟩ :=
    ingestCore_master st
      (buildKey a.hostname a.ip_address a.mac_address a.serial_number none)
      (fun e => applyAssetFields
        { e with
          correlation_key := e.correlation_key.merge
            (buildKey a.hostname a.ip_address a.mac_address a.serial_number none),
          present_in_sources := addUnique e.present_in_sources
            (pyOr a.source_system "unknown"),
          source_records := srAppend e.source_records
            (pyOr a.source_system "unknown") (RawRecord.asset a) }
        a (pyOr a.source_system "unknown")
        (SourceConfidence.get (pyOr a.source_system "unknown")))
      h
  refine ⟨st', ?_, hwf, hlo, hhi, ?_, ?_⟩
  · rw [← he]
    rfl
  · intro j b hb
    obtain ⟨b', hb', hcase⟩ := hpos j b hb
    rcases hcase with heq | heq
    · rw [heq] at hb'
      exact ⟨b, hb', rfl, rfl, rfl⟩
    · refine ⟨b', hb', ?_, ?_, ?_⟩ <;> rw [heq]
      · exact (assetMutate_counters _ a _ _).1
      · exact (assetMutate_counters _ a _ _).2.1
      · exact (assetMutate_counters _ a _ _).2.2
  · intro b' hb'
    rcases hmem b' hb' with h2 | ⟨b, hbm, heq⟩ | heq
    · exact Or.inl ⟨b', h2, rfl, rfl, rfl⟩
    · refine Or.inl ⟨b, hbm, ?_, ?_, ?_⟩ <;> rw [heq]
      · exact (assetMutate_counters _ a _ _).1
      · exact (assetMutate_counters _ a _ _).2.1
      · exact (assetMutate_counters _ a _ _).2.2
    · refine Or.inr ⟨?_, ?_, ?_⟩ <;> rw [heq]
      · exact (assetMutate_counters _ a _ _).1
      · exact (assetMutate_counters _ a _ _).2.1
      · exact (assetMutate_counters _ a _ _).2.2

end Secimport

namespace Secimport

set_option maxHeartbeats 1600000 in
/-- `ingest_endpoints`, one record: same shape as asset ingestion. -/
theorem ingestEndpointOne_ok (st : Store) (ep : ParsedEndpoint) (h : Store.WF st) :
    ∃ st', ingestEndpointOne st ep = some st' ∧ Store.WF st' ∧
      st.assets.length ≤ st'.assets.length ∧
      st'.assets.length ≤ st.assets.length + 1 ∧
      (∀ j b, st.assets.get? j = some b → ∃ b', st'.assets.get? j = some b' ∧
        b'.vulnerability_count = b.vulnerability_count ∧
        b'.critical_vuln_count = b.critical_vuln_count ∧
        b'.high_vuln_count = b.high_vuln_count) ∧
      (∀ b' ∈ st'.assets,
        (∃ b ∈ st.assets, b'.vulnerability_count = b.vulnerability_count ∧
          b'.critical_vuln_count = b.critical_vuln_count ∧
          b'.high_vuln_count = b.high_vuln_count) ∨
        (b'.vulnerability_count = 0 ∧ b'.critical_vuln_count = 0 ∧
          b'.high_vuln_count = 0)) := by
  obtain ⟨st', he, hwf, hlo, hhi, hpos, hmem⟩ :=
    ingestCore_master st
      (buildKey ep.hostname ep.ip_address ep.mac_address ep.serial_number ep.agent_id)
      (fun e => applyEndpointFields
        { e with
          correlation_key := e.correlation_key.merge
            (buildKey ep.hostname ep.ip_address ep.mac_address ep.serial_number
              ep.agent_id),
          present_in_sources := addUnique e.present_in_sources
            (pyOr ep.source_system "unknown"),
          source_records := srAppend e.source_records
            (pyOr ep.source_system "unknown") (RawRecord.endpoint ep) }
        ep (pyOr ep.source_system "unknown")
        (SourceConfidence.get (pyOr ep.source_system "unknown")))
      h
  refine ⟨st', ?_, hwf, hlo, hhi, ?_, ?_⟩
  · rw [← he]
    rfl
  · intro j b hb
    obtain ⟨b', hb', hcase⟩ := hpos j b hb
    rcases hcase with heq | heq
    · rw [heq] at hb'
      exact ⟨b, hb', rfl, rfl, rfl⟩
    · refine ⟨b', hb', ?_, ?_, ?_⟩ <;> rw [heq]
      · exact (endpointMutate_counters _ ep _ _).1
      · exact (endpointMutate_counters _ ep _ _).2.1
      · exact (endpointMutate_counters _ ep _ _).2.2
  · intro b' hb'
    rcases hmem b' hb' with h2 | ⟨b, hbm, heq⟩ | heq
    · exact Or.inl ⟨b', h2, rfl, rfl, rfl⟩
    · refine Or.inl ⟨b, hbm, ?_, ?_, ?_⟩ <;> rw [heq]
      · exact (endpointMutate_counters _ ep _ _).1
      · exact (endpointMutate_counters _ ep _ _).2.1
      · exact (endpointMutate_counters _ ep _ _).2.2
    · refine Or.inr ⟨?_, ?_, ?_⟩ <;> rw [heq]
      · exact (endpointMutate_counters _ ep _ _).1
      · exact (endpointMutate_counters _ ep _ _).2.1
      · exact (endpointMutate_counters _ ep _ _).2.2

set_option maxHeartbeats 1600000 in
/-- `ingest_network_observations`, one record: same shape as asset
ingestion. -/
theorem ingestNetObsOne_ok (st : Store) (o : ParsedNetworkObservation)
    (h : Store.WF st) :
    ∃ st', ingestNetObsOne st o = some st' ∧ Store.WF st' ∧
      st.assets.length ≤ st'.assets.length ∧
      st'.assets.length ≤ st.assets.length + 1 ∧
      (∀ j b, st.assets.get? j = some b → ∃ b', st'.assets.get? j = some b' ∧
        b'.vulnerability_count = b.vulnerability_count ∧
        b'.critical_vuln_count = b.critical_vuln_count ∧
        b'.high_vuln_count = b.high_vuln_count) ∧
      (∀ b' ∈ st'.assets,
        (∃ b ∈ st.assets, b'.vulnerability_count = b.vulnerability_count ∧
          b'.critical_vuln_count = b.critical_vuln_count ∧
          b'.high_vuln_count = b.high_vuln_count) ∨
        (b'.vulnerability_count = 0 ∧ b'.critical_vuln_count = 0 ∧
          b'.high_vuln_count = 0)) := by
  obtain ⟨st', he, hwf, hlo, hhi, hpos, hmem⟩ :=
    ingestCore_master st
      (buildKey o.hostname o.ip_address o.mac_address none none)
      (fun e => applyNetObsFields
        { e with
          correlation_key := e.correlation_key.merge
            (buildKey o.hostname o.ip_address o.mac_address none none),
          present_in_sources := addUnique e.present_in_sources
            (pyOr o.source_system "unknown") }
        o (pyOr o.source_system "unknown")
        (SourceConfidence.get (pyOr o.source_system "unknown")))
      h
  refine ⟨st', ?_, hwf, hlo, hhi, ?_, ?_⟩
  · rw [← he]
    rfl
  · intro j b hb
    obtain ⟨b', hb', hcase⟩ := hpos j b hb
    rcases hcase with heq | heq
    · rw [heq] at hb'
      exact ⟨b, hb', rfl, rfl, rfl⟩
    · refine ⟨b', hb', ?_, ?_, ?_⟩ <;> rw [heq]
      · exact (netObsMutate_counters _ o _ _).1
      · exact (netObsMutate_counters _ o _ _).2.1
      · exact (netObsMutate_counters _ o _ _).2.2
  · intro b' hb'
    rcases hmem b' hb' with h2 | ⟨b, hbm, heq⟩ | heq
    · exact Or.inl ⟨b', h2, rfl, rfl, rfl⟩
    · refine Or.inl ⟨b, hbm, ?_, ?_, ?_⟩ <;> rw [heq]
      · exact (netObsMutate_counters _ o _ _).1
      · exact (netObsMutate_counters _ o _ _).2.1
      · exact (netObsMutate_counters _ o _ _).2.2
    · refine Or.inr ⟨?_, ?_, ?_⟩ <;> rw [heq]
      · exact (netObsMutate_counters _ o _ _).1
      · exact (netObsMutate_counters _ o _ _).2.1
      · exact (netObsMutate_counters _ o _ _).2.2

end Secimport

namespace Secimport

/-- Counter deltas of one vulnerability record on the touched asset. -/
theorem bumpVuln_counters (e : EnrichedAsset) (v : ParsedVulnerability)
    (source : String) :
    (bumpVuln e v source).vulnerability_count = e.vulnerability_count + 1 ∧
    (bumpVuln e v source).critical_vuln_count = e.critical_vuln_count +
      (if strLower v.severity = "critical" then 1 else 0) ∧
    (bumpVuln e v source).high_vuln_count = e.high_vuln_count +
      (if strLower v.severity = "high" then 1 else 0) := by
  by_cases h1 : strLower v.severity = "critical"
  · have h2 : ¬ strLower v.severity = "high" := by
      rw [h1]
      decide
    simp [bumpVuln, h1, h2]
  · by_cases h2 : strLower v.severity = "high"
    · simp [bumpVuln, h1, h2]
    · simp [bumpVuln, h1, h2]

/-- Replacing one element shifts a projected sum by the difference. -/
theorem sumProj_set (f : EnrichedAsset → Nat) :
    ∀ (l : List EnrichedAsset) (i : Nat) (b b' : EnrichedAsset),
      l.get? i = some b →
      ((l.set i b').map f).sum + f b = (l.map f).sum + f b'
  | [], i, b, b', hb => by simp at hb
  | x :: xs, 0, b, b', hb => by
      simp only [List.get?] at hb
      have hxb : x = b := Option.some.inj hb
      subst hxb
      simp only [List.set, List.map_cons, List.sum_cons]
      omega
  | x :: xs, i + 1, b, b', hb => by
      simp only [List.get?] at hb
      have ih := sumProj_set f xs i b b' hb
      simp only [List.set, List.map_cons, List.sum_cons]
      omega

set_option maxHeartbeats 1600000 in
/-- `ingest_vulnerabilities`, one record: succeeds on a well-formed store,
keeps it well-formed, adds at most one asset, raises the three counter
totals by exactly (1, [severity critical], [severity high]), never lowers
any existing asset's counters, and every resulting asset is an untouched
old asset or a bump of an old or fresh seeded asset. -/
theorem ingestVulnOne_ok (st : Store) (v : ParsedVulnerability) (h : Store.WF st) :
    ∃ st', ingestVulnOne st v = some st' ∧ Store.WF st' ∧
      st.assets.length ≤ st'.assets.length ∧
      st'.assets.length ≤ st.assets.length + 1 ∧
      sumVuln st'.assets = sumVuln st.assets + 1 ∧
      sumCrit st'.assets = sumCrit st.assets +
        (if strLower v.severity = "critical" then 1 else 0) ∧
      sumHigh st'.assets = sumHigh st.assets +
        (if strLower v.severity = "high" then 1 else 0) ∧
      (∀ j b, st.assets.get? j = some b → ∃ b', st'.assets.get? j = some b' ∧
        b.vulnerability_count ≤ b'.vulnerability_count ∧
        b.critical_vuln_count ≤ b'.critical_vuln_count ∧
        b.high_vuln_count ≤ b'.high_vuln_count) ∧
      (∀ b' ∈ st'.assets, (∃ b ∈ st.assets,
          b' = b ∨ b' = bumpVuln b v (pyOr v.source_system "unknown")) ∨
        ∃ b, b.vulnerability_count = 0 ∧ b.critical_vuln_count = 0 ∧
          b.high_vuln_count = 0 ∧
          b' = bumpVuln b v (pyOr v.source_system "unknown")) := by
  obtain ⟨r, hr, hbnd, _, hdef, hms⟩ :=
    findMatch_wf st (buildKey v.hostname v.ip_address none none none) h
  have hkey : ingestVulnOne st v =
      (findMatch st (buildKey v.hostname v.ip_address none none none)).bind fun m =>
        (if m.matched then
          match m.enriched_asset_index with
          | some i => (st.assets.get? i).map fun e => (i, e, st)
          | none =>
            some (newVulnAsset st (buildKey v.hostname v.ip_address none none none))
        else
          some (newVulnAsset st
            (buildKey v.hostname v.ip_address none none none))).map
          fun g =>
            { g.2.2 with
              assets := g.2.2.assets.set g.1
                (bumpVuln g.2.1 v (pyOr v.source_system "unknown")) } := rfl
  have bv : ∀ e, (bumpVuln e v (pyOr v.source_system "unknown")).vulnerability_count
      = e.vulnerability_count + 1 :=
    fun e => (bumpVuln_counters e v _).1
  have bc : ∀ e, (bumpVuln e v (pyOr v.source_system "unknown")).critical_vuln_count
      = e.critical_vuln_count + (if strLower v.severity = "critical" then 1 else 0) :=
    fun e => (bumpVuln_counters e v _).2.1
  have bh : ∀ e, (bumpVuln e v (pyOr v.source_system "unknown")).high_vuln_count
      = e.high_vuln_count + (if strLower v.severity = "high" then 1 else 0) :=
    fun e => (bumpVuln_counters e v _).2.2
  rcases hmch : r.matched with _ | _
  · -- no match: append the seeded asset, register it, then bump it
    have hr0 : r = ({} : MatchResult) := hdef hmch
    have hassets : ((newVulnAsset st (buildKey v.hostname v.ip_address none none none)).2.2.assets.set (newVulnAsset st (buildKey v.hostname v.ip_address none none none)).1 (bumpVuln (newVulnAsset st (buildKey v.hostname v.ip_address none none none)).2.1 v (pyOr v.source_system "unknown"))) = st.assets ++ [bumpVuln ({ correlation_key := CorrelationKey.merge {} (buildKey v.hostname v.ip_address none none none) } : EnrichedAsset) v (pyOr v.source_system "unknown")] := by
      simp only [newVulnAsset, Store.updateIndexes, List.length_append,
        List.length_singleton, Nat.add_sub_cancel]
      exact set_append_last _ _ _
    refine ⟨{ (newVulnAsset st (buildKey v.hostname v.ip_address none none none)).2.2 with assets := (newVulnAsset st (buildKey v.hostname v.ip_address none none none)).2.2.assets.set (newVulnAsset st (buildKey v.hostname v.ip_address none none none)).1 (bumpVuln (newVulnAsset st (buildKey v.hostname v.ip_address none none none)).2.1 v (pyOr v.source_system "unknown")) }, ?_, ?_, ?_, ?_, ?_, ?_, ?_, ?_, ?_⟩
    · rw [hkey, hr, Option.some_bind', hr0]
      rfl
    · -- well-formedness
      have hwf1 : Store.WF { st with assets := st.assets ++ [({ correlation_key := CorrelationKey.merge {} (buildKey v.hostname v.ip_address none none none) } : EnrichedAsset)] } := by
        obtain ⟨w1, w2, w3, w4, w5⟩ := h
        exact ⟨w1.mono (by simp), w2.mono (by simp), w3.mono (by simp),
          w4.mono (by simp), w5.mono (by simp)⟩
      have hwf2 := updateIndexes_wf _ ((st.assets ++ [({ correlation_key := CorrelationKey.merge {} (buildKey v.hostname v.ip_address none none none) } : EnrichedAsset)]).length - 1) (buildKey v.hostname v.ip_address none none none) hwf1 (by simp)
      obtain ⟨w1, w2, w3, w4, w5⟩ := hwf2
      refine ⟨?_, ?_, ?_, ?_, ?_⟩ <;>
        · simp only [newVulnAsset, Store.updateIndexes, hassets] at *
          simp only [List.length_set, List.length_append, List.length_singleton] at *
          first
          | exact w1
          | exact w2
          | exact w3
          | exact w4
          | exact w5
    · simp only [hassets]
      simp
    · simp only [hassets]
      simp
    · simp only [hassets, sumVuln, List.map_append, List.sum_append,
        List.map_cons, List.map_nil, List.sum_cons, List.sum_nil]
      rw [bv]
      simp
    · simp only [hassets, sumCrit, List.map_append, List.sum_append,
        List.map_cons, List.map_nil, List.sum_cons, List.sum_nil]
      rw [bc]
      simp
    · simp only [hassets, sumHigh, List.map_append, List.sum_append,
        List.map_cons, List.map_nil, List.sum_cons, List.sum_nil]
      rw [bh]
      simp
    · intro j b hb
      simp only [hassets]
      have hjlt : j < st.assets.length := by
        by_contra hge
        rw [List.get?_eq_none.mpr (by omega)] at hb
        exact Option.noConfusion hb
      exact ⟨b, by rw [List.get?_append hjlt]; exact hb, le_refl _, le_refl _, le_refl _⟩
    · intro b' hb'
      simp only [hassets] at hb'
      rcases List.mem_append.mp hb' with h2 | h2
      · exact Or.inl ⟨b', h2, Or.inl rfl⟩
      · exact Or.inr ⟨_, rfl, rfl, rfl, List.mem_singleton.mp h2⟩
  · -- match: bump the matched asset in place
    have hsome := hms hmch
    rw [Option.isSome_iff_exists] at hsome
    obtain ⟨i, hi⟩ := hsome
    have hilt : i < st.assets.length := hbnd i hi
    have hget : st.assets.get? i = some (st.assets.get ⟨i, hilt⟩) :=
      List.get?_eq_get hilt
    refine ⟨{ st with assets := st.assets.set i (bumpVuln (st.assets.get ⟨i, hilt⟩) v (pyOr v.source_system "unknown")) }, ?_, ?_, ?_, ?_, ?_, ?_, ?_, ?_, ?_⟩
    · rw [hkey, hr, Option.some_bind']
      simp only [hmch, hi, hget, eq_self_iff_true, if_true, Option.map_some']
    · obtain ⟨w1, w2, w3, w4, w5⟩ := h
      have hlen : (st.assets.set i (bumpVuln (st.assets.get ⟨i, hilt⟩) v
          (pyOr v.source_system "unknown"))).length = st.assets.length :=
        List.length_set _ _ _
      exact ⟨hlen.symm ▸ w1, hlen.symm ▸ w2, hlen.symm ▸ w3,
        hlen.symm ▸ w4, hlen.symm ▸ w5⟩
    · simp
    · simp
    · have hs := sumProj_set (fun x => x.vulnerability_count) st.assets i
        (st.assets.get ⟨i, hilt⟩)
        (bumpVuln (st.assets.get ⟨i, hilt⟩) v (pyOr v.source_system "unknown")) hget
      simp only [] at hs
      simp only [sumVuln]
      rw [bv] at hs
      omega
    · have hs := sumProj_set (fun x => x.critical_vuln_count) st.assets i
        (st.assets.get ⟨i, hilt⟩)
        (bumpVuln (st.assets.get ⟨i, hilt⟩) v (pyOr v.source_system "unknown")) hget
      simp only [] at hs
      simp only [sumCrit]
      rw [bc] at hs
      omega
    · have hs := sumProj_set (fun x => x.high_vuln_count) st.assets i
        (st.assets.get ⟨i, hilt⟩)
        (bumpVuln (st.assets.get ⟨i, hilt⟩) v (pyOr v.source_system "unknown")) hget
      simp only [] at hs
      simp only [sumHigh]
      rw [bh] at hs
      omega
    · intro j b hb
      by_cases hji : j = i
      · subst hji
        have hbe : b = st.assets.get ⟨j, hilt⟩ := by
          rw [hb] at hget
          exact (Option.some.inj hget.symm).symm
        refine ⟨_, List.get?_set_eq_of_lt _ hilt, ?_, ?_, ?_⟩
        · rw [bv, ← hbe]
          omega
        · rw [bc, ← hbe]
          omega
        · rw [bh, ← hbe]
          omega
      · exact ⟨b, by rw [List.get?_set_ne _ _ (Ne.symm hji)]; exact hb,
          le_refl _, le_refl _, le_refl _⟩
    · intro b' hb'
      rcases List.mem_or_eq_of_mem_set hb' with h2 | h2
      · exact Or.inl ⟨b', h2, Or.inl rfl⟩
      · exact Or.inl ⟨st.assets.get ⟨i, hilt⟩, List.get_mem _ _ _, Or.inr h2⟩

end Secimport

namespace Secimport

/-- `AgreesExceptOwner` is reflexive. -/
theorem AgreesExceptOwner_refl (x : EnrichedAsset) : AgreesExceptOwner x x := by
  unfold AgreesExceptOwner
  exact ⟨rfl, rfl, rfl, rfl, rfl, rfl, rfl, rfl, rfl, rfl, rfl, rfl, rfl, rfl,
    rfl, rfl, rfl, rfl⟩

/-- `AgreesExceptOwner` is transitive. -/
theorem AgreesExceptOwner_trans {x y z : EnrichedAsset}
    (h1 : AgreesExceptOwner x y) (h2 : AgreesExceptOwner y z) :
    AgreesExceptOwner x z := by
  unfold AgreesExceptOwner at h1 h2 ⊢
  obtain ⟨a1, a2, a3, a4, a5, a6, a7, a8, a9, a10, a11, a12, a13, a14, a15,
    a16, a17, a18⟩ := h1
  obtain ⟨b1, b2, b3, b4, b5, b6, b7, b8, b9, b10, b11, b12, b13, b14, b15,
    b16, b17, b18⟩ := h2
  exact ⟨a1.trans b1, a2.trans b2, a3.trans b3, a4.trans b4, a5.trans b5,
    a6.trans b6, a7.trans b7, a8.trans b8, a9.trans b9, a10.trans b10,
    a11.trans b11, a12.trans b12, a13.trans b13, a14.trans b14, a15.trans b15,
    a16.trans b16, a17.trans b17, a18.trans b18⟩

/-- Writing one of the four ownership fields changes nothing else. -/
theorem set_field_owner_agrees (e : EnrichedAsset) (f : FieldName)
    (hf : f = FieldName.owner_email ∨ f = FieldName.owner_name ∨
      f = FieldName.department ∨ f = FieldName.location)
    (v : Option String) (src : String) (c : ℚ) (ts : Option Nat) :
    AgreesExceptOwner (e.set_field f v src c ts) e := by
  rcases hf with rfl | rfl | rfl | rfl <;>
    (cases v with
     | none => exact AgreesExceptOwner_refl e
     | some w =>
        rw [set_field_some_eq]
        split
        · simp [AgreesExceptOwner, EnrichedAsset.setF]
        · split
          · simp [AgreesExceptOwner, EnrichedAsset.setF]
          · exact AgreesExceptOwner_refl e)

/-- The four ownership writes of one applied owner mapping change nothing
else. -/
theorem ownerChain_agrees (e : EnrichedAsset) (mp : ParsedOwnerMapping)
    (src : String) (c : ℚ) :
    AgreesExceptOwner
      ((((e.set_field .owner_email mp.owner_email src c
        ).set_field .owner_name mp.owner_name src c
        ).set_field .department mp.department src c
        ).set_field .location mp.location src c) e := by
  refine AgreesExceptOwner_trans (set_field_owner_agrees _ _ (by simp) _ _ _ _)
    (AgreesExceptOwner_trans (set_field_owner_agrees _ _ (by simp) _ _ _ _)
      (AgreesExceptOwner_trans (set_field_owner_agrees _ _ (by simp) _ _ _ _)
        (set_field_owner_agrees _ _ (by simp) _ _ _ _)))

end Secimport

namespace Secimport

set_option maxHeartbeats 1600000 in
/-- `ingest_owner_mappings`, one record: succeeds on a well-formed store,
never changes the indexes or the number of assets, reports exactly whether
the mapping matched, leaves the store untouched on no match, and on a
match rewrites only the matched asset's four ownership fields. -/
theorem ingestOwnerOne_ok (st : Store) (mp : ParsedOwnerMapping) (h : Store.WF st) :
    ∃ q, ingestOwnerOne st mp = some q ∧ Store.WF q.1 ∧
      q.1.assets.length = st.assets.length ∧
      q.1.hostname_idx = st.hostname_idx ∧ q.1.ip_idx = st.ip_idx ∧
      q.1.mac_idx = st.mac_idx ∧ q.1.serial_idx = st.serial_idx ∧
      q.1.agent_id_idx = st.agent_id_idx ∧
      q.2 = ownerMatched st mp ∧
      (q.2 = false → q.1 = st) ∧
      (q.2 = true → ∃ i b b', st.assets.get? i = some b ∧
        q.1.assets = st.assets.set i b' ∧ AgreesExceptOwner b' b) ∧
      (∀ j b, st.assets.get? j = some b → ∃ b', q.1.assets.get? j = some b' ∧
        AgreesExceptOwner b' b) := by
  obtain ⟨r, hr, hbnd, _, _, hms⟩ :=
    findMatch_wf st (buildKey none mp.ip_address none none none) h
  have hkey : ingestOwnerOne st mp =
      (findMatch st (buildKey none mp.ip_address none none none)).bind fun r =>
        if r.matched then
          match r.enriched_asset_index with
          | some i =>
            (st.assets.get? i).map fun e =>
              ({ st with assets := st.assets.set i ((((e.set_field .owner_email mp.owner_email (pyOr mp.source_system "unknown") (SourceConfidence.get (pyOr mp.source_system "unknown") * mp.confidence)).set_field .owner_name mp.owner_name (pyOr mp.source_system "unknown") (SourceConfidence.get (pyOr mp.source_system "unknown") * mp.confidence)).set_field .department mp.department (pyOr mp.source_system "unknown") (SourceConfidence.get (pyOr mp.source_system "unknown") * mp.confidence)).set_field .location mp.location (pyOr mp.source_system "unknown") (SourceConfidence.get (pyOr mp.source_system "unknown") * mp.confidence)) }, true)
          | none => some (st, false)
        else some (st, false) := rfl
  have hom : ownerMatched st mp = r.matched := by
    unfold ownerMatched
    rw [hr]
  rcases hmch : r.matched with _ | _
  · refine ⟨(st, false), ?_, h, rfl, rfl, rfl, rfl, rfl, rfl, ?_, fun _ => rfl,
      ?_, ?_⟩
    · rw [hkey, hr, Option.some_bind', hmch]
      rfl
    · rw [hom, hmch]
    · intro hq
      exact absurd hq (by simp)
    · intro j b hb
      exact ⟨b, hb, AgreesExceptOwner_refl b⟩
  · have hsome := hms hmch
    rw [Option.isSome_iff_exists] at hsome
    obtain ⟨i, hi⟩ := hsome
    have hilt : i < st.assets.length := hbnd i hi
    have hget : st.assets.get? i = some (st.assets.get ⟨i, hilt⟩) :=
      List.get?_eq_get hilt
    refine ⟨({ st with assets := st.assets.set i ((((((st.assets.get ⟨i, hilt⟩).set_field .owner_email mp.owner_email (pyOr mp.source_system "unknown") (SourceConfidence.get (pyOr mp.source_system "unknown") * mp.confidence)).set_field .owner_name mp.owner_name (pyOr mp.source_system "unknown") (SourceConfidence.get (pyOr mp.source_system "unknown") * mp.confidence)).set_field .department mp.department (pyOr mp.source_system "unknown") (SourceConfidence.get (pyOr mp.source_system "unknown") * mp.confidence)).set_field .location mp.location (pyOr mp.source_system "unknown") (SourceConfidence.get (pyOr mp.source_system "unknown") * mp.confidence))) }, true), ?_, ?_, ?_, rfl, rfl, rfl, rfl, rfl, ?_, ?_, ?_, ?_⟩
    · rw [hkey, hr, Option.some_bind']
      simp only [hmch, hi, hget, eq_self_iff_true, if_true, Option.map_some']
    · obtain ⟨w1, w2, w3, w4, w5⟩ := h
      have hlen := List.length_set st.assets i
        ((((((st.assets.get ⟨i, hilt⟩)).set_field .owner_email mp.owner_email (pyOr mp.source_system "unknown") (SourceConfidence.get (pyOr mp.source_system "unknown") * mp.confidence)).set_field .owner_name mp.owner_name (pyOr mp.source_system "unknown") (SourceConfidence.get (pyOr mp.source_system "unknown") * mp.confidence)).set_field .department mp.department (pyOr mp.source_system "unknown") (SourceConfidence.get (pyOr mp.source_system "unknown") * mp.confidence)).set_field .location mp.location (pyOr mp.source_system "unknown") (SourceConfidence.get (pyOr mp.source_system "unknown") * mp.confidence))
      exact ⟨hlen.symm ▸ w1, hlen.symm ▸ w2, hlen.symm ▸ w3,
        hlen.symm ▸ w4, hlen.symm ▸ w5⟩
    · exact List.length_set _ _ _
    · rw [hom, hmch]
    · intro hq
      exact absurd hq (by simp)
    · intro _
      exact ⟨i, st.assets.get ⟨i, hilt⟩, _, hget, rfl, ownerChain_agrees _ mp _ _⟩
    · intro j b hb
      by_cases hji : j = i
      · subst hji
        have hbe : b = st.assets.get ⟨j, hilt⟩ := by
          rw [hb] at hget
          exact (Option.some.inj hget.symm).symm
        refine ⟨_, List.get?_set_eq_of_lt _ hilt, ?_⟩
        rw [hbe]
        exact ownerChain_agrees _ mp _ _
      · exact ⟨b, by rw [List.get?_set_ne _ _ (Ne.symm hji)]; exact hb,
          AgreesExceptOwner_refl b⟩

end Secimport

namespace Secimport

/-! ## Merge and deduplication lemmas -/

/-- Writing any provenance slot leaves `vulnerability_count` alone. -/
theorem setF_vc (a : EnrichedAsset) (f : FieldName) (p : Option FieldProvenance) :
    (a.setF f p).vulnerability_count = a.vulnerability_count := by
  cases f <;> rfl

/-- Writing any provenance slot leaves `critical_vuln_count` alone. -/
theorem setF_cc (a : EnrichedAsset) (f : FieldName) (p : Option FieldProvenance) :
    (a.setF f p).critical_vuln_count = a.critical_vuln_count := by
  cases f <;> rfl

/-- Writing any provenance slot leaves `high_vuln_count` alone. -/
theorem setF_hc (a : EnrichedAsset) (f : FieldName) (p : Option FieldProvenance) :
    (a.setF f p).high_vuln_count = a.high_vuln_count := by
  cases f <;> rfl

/-- One field of `_merge_assets`'s arbitration loop leaves the three
counters alone. -/
theorem mergeStep_counters (mg acc : EnrichedAsset) (f : FieldName) :
    ((match mg.getF f with
      | none => acc
      | some other =>
        match acc.getF f with
        | none => acc.setF f (some other)
        | some current =>
          if other.confidence > current.confidence then acc.setF f (some other)
          else acc).vulnerability_count = acc.vulnerability_count ∧
    (match mg.getF f with
      | none => acc
      | some other =>
        match acc.getF f with
        | none => acc.setF f (some other)
        | some current =>
          if other.confidence > current.confidence then acc.setF f (some other)
          else acc).critical_vuln_count = acc.critical_vuln_count ∧
    (match mg.getF f with
      | none => acc
      | some other =>
        match acc.getF f with
        | none => acc.setF f (some other)
        | some current =>
          if other.confidence > current.confidence then acc.setF f (some other)
          else acc).high_vuln_count = acc.high_vuln_count) := by
  cases hm : mg.getF f with
  | none => exact ⟨rfl, rfl, rfl⟩
  | some other =>
    cases ha : acc.getF f with
    | none => exact ⟨setF_vc _ _ _, setF_cc _ _ _, setF_hc _ _ _⟩
    | some current =>
      show (if other.confidence > current.confidence then acc.setF f (some other)
          else acc).vulnerability_count = acc.vulnerability_count ∧
        (if other.confidence > current.confidence then acc.setF f (some other)
          else acc).critical_vuln_count = acc.critical_vuln_count ∧
        (if other.confidence > current.confidence then acc.setF f (some other)
          else acc).high_vuln_count = acc.high_vuln_count
      by_cases hgt : other.confidence > current.confidence
      · rw [if_pos hgt]
        exact ⟨setF_vc _ _ _, setF_cc _ _ _, setF_hc _ _ _⟩
      · rw [if_neg hgt]
        exact ⟨rfl, rfl, rfl⟩

/-- The provenance-arbitration fold of `_merge_assets` leaves the three
counters alone. -/
theorem mergeFields_counters (mg : EnrichedAsset) :
    ∀ (fields : List FieldName) (acc : EnrichedAsset),
      ((fields.foldl
        (fun acc f =>
          match mg.getF f with
          | none => acc
          | some other =>
            match acc.getF f with
            | none => acc.setF f (some other)
            | some current =>
              if other.confidence > current.confidence then acc.setF f (some other)
              else acc)
        acc).vulnerability_count = acc.vulnerability_count ∧
      (fields.foldl
        (fun acc f =>
          match mg.getF f with
          | none => acc
          | some other =>
            match acc.getF f with
            | none => acc.setF f (some other)
            | some current =>
              if other.confidence > current.confidence then acc.setF f (some other)
              else acc)
        acc).critical_vuln_count = acc.critical_vuln_count ∧
      (fields.foldl
        (fun acc f =>
          match mg.getF f with
          | none => acc
          | some other =>
            match acc.getF f with
            | none => acc.setF f (some other)
            | some current =>
              if other.confidence > current.confidence then acc.setF f (some other)
              else acc)
        acc).high_vuln_count = acc.high_vuln_count)
  | [], acc => ⟨rfl, rfl, rfl⟩
  | f :: fs, acc => by
      obtain ⟨i1, i2, i3⟩ := mergeFields_counters mg fs
        (match mg.getF f with
          | none => acc
          | some other =>
            match acc.getF f with
            | none => acc.setF f (some other)
            | some current =>
              if other.confidence > current.confidence then acc.setF f (some other)
              else acc)
      obtain ⟨s1, s2, s3⟩ := mergeStep_counters mg acc f
      simp only [List.foldl_cons]
      exact ⟨i1.trans s1, i2.trans s2, i3.trans s3⟩

/-- The raw-record concatenation of `_merge_assets` leaves the counters
alone. -/
theorem mergeRecords_counters :
    ∀ (rs : List (String × List RawRecord)) (acc : EnrichedAsset),
      ((rs.foldl (fun acc p =>
          { acc with source_records := srExtend acc.source_records p.1 p.2 })
        acc).vulnerability_count = acc.vulnerability_count ∧
      (rs.foldl (fun acc p =>
          { acc with source_records := srExtend acc.source_records p.1 p.2 })
        acc).critical_vuln_count = acc.critical_vuln_count ∧
      (rs.foldl (fun acc p =>
          { acc with source_records := srExtend acc.source_records p.1 p.2 })
        acc).high_vuln_count = acc.high_vuln_count)
  | [], acc => ⟨rfl, rfl, rfl⟩
  | p :: ps, acc => by
      obtain ⟨i1, i2, i3⟩ := mergeRecords_counters ps
        { acc with source_records := srExtend acc.source_records p.1 p.2 }
      simp only [List.foldl_cons]
      exact ⟨i1, i2, i3⟩

/-- C4's merge clause: `_merge_assets` sums all three counters. -/
theorem mergeAssets_counters (x y : EnrichedAsset) :
    (mergeAssets x y).vulnerability_count
        = x.vulnerability_count + y.vulnerability_count ∧
    (mergeAssets x y).critical_vuln_count
        = x.critical_vuln_count + y.critical_vuln_count ∧
    (mergeAssets x y).high_vuln_count
        = x.high_vuln_count + y.high_vuln_count := by
  unfold mergeAssets
  obtain ⟨r1, r2, r3⟩ := mergeRecords_counters y.source_records _
  rw [r1, r2, r3]
  obtain ⟨f1, f2, f3⟩ := mergeFields_counters y
    [FieldName.hostname, .ip_address, .mac_address, .serial_number,
     .agent_id, .operating_system, .os_version, .asset_type,
     .owner_email, .owner_name, .department, .location,
     .agent_status, .policy_status, .isolation_status]
    { x with
      correlation_key := x.correlation_key.merge y.correlation_key,
      present_in_sources := unionU x.present_in_sources y.present_in_sources }
  refine ⟨?_, ?_, ?_⟩ <;> simp only [f1, f2, f3]

end Secimport

namespace Secimport

/-- The inner scan never grows the survivor list. -/
theorem dedupInner_length (keep : EnrichedAsset) (l : List EnrichedAsset) :
    (dedupInner keep l).2.1.length ≤ l.length := by
  induction l generalizing keep with
  | nil => exact le_refl 0
  | cons x xs ih =>
    rw [dedupInner]
    split
    · exact (ih (mergeAssets keep x)).trans (by simp)
    · simp only [List.length_cons]
      exact Nat.succ_le_succ (ih keep)

/-- Inner-scan survivors come from the scanned list. -/
theorem dedupInner_subset (keep : EnrichedAsset) (l : List EnrichedAsset) :
    ∀ a ∈ (dedupInner keep l).2.1, a ∈ l := by
  induction l generalizing keep with
  | nil => intro a ha; exact absurd ha (by simp [dedupInner])
  | cons x xs ih =>
    rw [dedupInner]
    split
    · intro a ha
      exact List.mem_cons_of_mem x (ih (mergeAssets keep x) a ha)
    · intro a ha
      rcases List.mem_cons.mp ha with h2 | h2
      · exact h2 ▸ List.mem_cons_self x xs
      · exact List.mem_cons_of_mem x (ih keep a h2)

/-- The inner scan only grows the kept asset's counters. -/
theorem dedupInner_counters (keep : EnrichedAsset) (l : List EnrichedAsset) :
    keep.vulnerability_count ≤ (dedupInner keep l).1.vulnerability_count ∧
    keep.critical_vuln_count ≤ (dedupInner keep l).1.critical_vuln_count ∧
    keep.high_vuln_count ≤ (dedupInner keep l).1.high_vuln_count := by
  induction l generalizing keep with
  | nil => exact ⟨le_refl _, le_refl _, le_refl _⟩
  | cons x xs ih =>
    rw [dedupInner]
    split
    · dsimp only
      obtain ⟨m1, m2, m3⟩ := mergeAssets_counters keep x
      obtain ⟨i1, i2, i3⟩ := ih (mergeAssets keep x)
      exact ⟨by omega, by omega, by omega⟩
    · exact ih keep

/-- Zero inner merges happen exactly when nothing later overlaps the kept
asset; in that case the scan changes nothing. -/
theorem dedupInner_zero (keep : EnrichedAsset) (l : List EnrichedAsset) :
    ((dedupInner keep l).2.2 = 0 ↔
      ∀ x ∈ l, keep.correlation_key.overlaps x.correlation_key = false) ∧
    ((dedupInner keep l).2.2 = 0 →
      (dedupInner keep l).1 = keep ∧ (dedupInner keep l).2.1 = l) := by
  induction l generalizing keep with
  | nil =>
    refine ⟨⟨fun _ x hx => absurd hx (by simp), fun _ => rfl⟩, fun _ => ⟨rfl, rfl⟩⟩
  | cons x xs ih =>
    rw [dedupInner]
    split
    · rename_i hov
      constructor
      · constructor
        · intro h0
          exact absurd h0 (by simp)
        · intro hall
          exact absurd (hall x (List.mem_cons_self x xs)) (by simp [hov])
      · intro h0
        exact absurd h0 (by simp)
    · rename_i hov
      rw [Bool.not_eq_true] at hov
      obtain ⟨ihiff, ihid⟩ := ih keep
      constructor
      · constructor
        · intro h0 y hy
          rcases List.mem_cons.mp hy with h2 | h2
          · exact h2 ▸ hov
          · exact ihiff.mp (by simpa using h0) y h2
        · intro hall
          simpa using ihiff.mpr fun y hy => hall y (List.mem_cons_of_mem x hy)
      · intro h0
        obtain ⟨e1, e2⟩ := ihid (by simpa using h0)
        exact ⟨e1, by simp [e2]⟩

end Secimport

namespace Secimport

/-- Every survivor of the outer scan dominates some original asset's
counters. -/
theorem dedupGo_counters (fuel : Nat) (l : List EnrichedAsset) :
    ∀ a' ∈ (dedupGo fuel l).1, ∃ a ∈ l,
      a.vulnerability_count ≤ a'.vulnerability_count ∧
      a.critical_vuln_count ≤ a'.critical_vuln_count ∧
      a.high_vuln_count ≤ a'.high_vuln_count := by
  induction fuel generalizing l with
  | zero =>
    cases l with
    | nil => intro a' ha'; exact absurd ha' (by simp [dedupGo])
    | cons x xs =>
      intro a' ha'
      have hg : dedupGo 0 (x :: xs) = (x :: xs, 0) := rfl
      rw [hg] at ha'
      exact ⟨a', ha', le_refl _, le_refl _, le_refl _⟩
  | succ fuel ih =>
    cases l with
    | nil => intro a' ha'; exact absurd ha' (by simp [dedupGo])
    | cons x xs =>
      intro a' ha'
      rw [dedupGo] at ha'
      dsimp only at ha'
      rcases List.mem_cons.mp ha' with h2 | h2
      · subst h2
        obtain ⟨c1, c2, c3⟩ := dedupInner_counters x xs
        exact ⟨x, List.mem_cons_self x xs, by omega, by omega, by omega⟩
      · obtain ⟨a, hal, hc⟩ := ih (dedupInner x xs).2.1 a' h2
        exact ⟨a, List.mem_cons_of_mem x (dedupInner_subset x xs a hal), hc⟩

/-- With sufficient fuel, the outer scan reports zero merges exactly when
the keys are pairwise non-overlapping, and in that case it changes
nothing. -/
theorem dedupGo_zero (fuel : Nat) (l : List EnrichedAsset)
    (hf : l.length ≤ fuel) :
    ((dedupGo fuel l).2 = 0 ↔ PairwiseDisjointKeys l) ∧
    ((dedupGo fuel l).2 = 0 → (dedupGo fuel l).1 = l) := by
  induction fuel generalizing l with
  | zero =>
    have : l = [] := List.eq_nil_of_length_eq_zero (Nat.le_zero.mp hf)
    subst this
    exact ⟨⟨fun _ => List.Pairwise.nil, fun _ => rfl⟩, fun _ => rfl⟩
  | succ fuel ih =>
    cases l with
    | nil => exact ⟨⟨fun _ => List.Pairwise.nil, fun _ => rfl⟩, fun _ => rfl⟩
    | cons x xs =>
      rw [dedupGo]
      dsimp only
      obtain ⟨hiff0, hid0⟩ := dedupInner_zero x xs
      constructor
      · constructor
        · intro h0
          have hz1 : (dedupInner x xs).2.2 = 0 := by omega
          have hz2 : (dedupGo fuel (dedupInner x xs).2.1).2 = 0 := by omega
          obtain ⟨_, hrest⟩ := hid0 hz1
          rw [hrest] at hz2
          have hxs : xs.length ≤ fuel := by simpa using hf
          refine List.pairwise_cons.mpr ⟨hiff0.mp hz1, ?_⟩
          exact ((ih xs hxs).1).mp hz2
        · intro hp
          obtain ⟨hhead, htail⟩ := List.pairwise_cons.mp hp
          have hz1 : (dedupInner x xs).2.2 = 0 := hiff0.mpr hhead
          obtain ⟨_, hrest⟩ := hid0 hz1
          have hxs : xs.length ≤ fuel := by simpa using hf
          have hz2 : (dedupGo fuel (dedupInner x xs).2.1).2 = 0 := by
            rw [hrest]
            exact ((ih xs hxs).1).mpr htail
          omega
      · intro h0
        have hz1 : (dedupInner x xs).2.2 = 0 := by omega
        have hz2 : (dedupGo fuel (dedupInner x xs).2.1).2 = 0 := by omega
        obtain ⟨hkeep, hrest⟩ := hid0 hz1
        rw [hkeep]
        rw [hrest] at hz2 ⊢
        have hxs : xs.length ≤ fuel := by simpa using hf
        rw [(ih xs hxs).2 hz2]

end Secimport

namespace Secimport

/-- Rebuilding indexes from a list of assets whose positions stay within
the store keeps the store well-formed and the assets untouched. -/
theorem rebuildFrom_wf : ∀ (l : List EnrichedAsset) (st : Store) (i : Nat),
    Store.WF st → i + l.length ≤ st.assets.length →
    Store.WF (rebuildFrom st i l) ∧ (rebuildFrom st i l).assets = st.assets
  | [], st, i, h, _ => ⟨h, rfl⟩
  | a :: rest, st, i, h, hb => by
      rw [rebuildFrom]
      have hi : i < st.assets.length := by
        simp only [List.length_cons] at hb
        omega
      have h1 := updateIndexes_wf st i a.correlation_key h hi
      have h2 : (st.updateIndexes i a.correlation_key).assets = st.assets := rfl
      have := rebuildFrom_wf rest (st.updateIndexes i a.correlation_key) (i + 1)
        h1 (by
          rw [h2]
          simp only [List.length_cons] at hb
          omega)
      exact ⟨this.1, this.2.trans h2⟩

/-- `_rebuild_indexes` keeps the store well-formed and the assets
untouched. -/
theorem rebuildIndexes_wf (st : Store) :
    Store.WF st.rebuildIndexes ∧ st.rebuildIndexes.assets = st.assets := by
  have hwfc : Store.WF st.clearIndexes := by
    refine ⟨?_, ?_, ?_, ?_, ?_⟩ <;> intro p hp <;> exact absurd hp (by simp [Store.clearIndexes])
  have := rebuildFrom_wf st.assets st.clearIndexes 0 hwfc (by simp [Store.clearIndexes])
  exact this

/-- `deduplicate`: keeps the store well-formed; every surviving asset
dominates some original asset's counters; a merge-free pass returns the
store unchanged and reports zero exactly on pairwise non-overlapping keys;
and a second immediate call after a merge-free pass also reports zero. -/
theorem deduplicate_ok (st : Store) (h : Store.WF st) :
    Store.WF (deduplicate st).1 ∧
    (∀ a' ∈ (deduplicate st).1.assets, ∃ a ∈ st.assets,
      a.vulnerability_count ≤ a'.vulnerability_count ∧
      a.critical_vuln_count ≤ a'.critical_vuln_count ∧
      a.high_vuln_count ≤ a'.high_vuln_count) ∧
    ((deduplicate st).2 = 0 ↔ PairwiseDisjointKeys st.assets) ∧
    ((deduplicate st).2 = 0 → (deduplicate st).1 = st) := by
  obtain ⟨hiff, hid⟩ := dedupGo_zero st.assets.length st.assets (le_refl _)
  have hcnt := dedupGo_counters st.assets.length st.assets
  rw [deduplicate]
  by_cases h0 : (dedupList st.assets).2 = 0
  · rw [if_neg (by simpa using h0)]
    have hass : (dedupList st.assets).1 = st.assets := hid h0
    refine ⟨?_, ?_, ?_, ?_⟩
    · obtain ⟨w1, w2, w3, w4, w5⟩ := h
      rw [hass]
      exact ⟨w1, w2, w3, w4, w5⟩
    · intro a' ha'
      exact hcnt a' ha'
    · simpa using hiff
    · intro _
      show { st with assets := (dedupList st.assets).1 } = st
      rw [hass]
  · rw [if_pos (by simpa using h0)]
    refine ⟨?_, ?_, ?_, ?_⟩
    · have hr := rebuildIndexes_wf { st with assets := (dedupList st.assets).1 }
      exact hr.1
    · intro a' ha'
      have hr := rebuildIndexes_wf { st with assets := (dedupList st.assets).1 }
      rw [hr.2] at ha'
      exact hcnt a' ha'
    · constructor
      · intro hz
        exact absurd hz h0
      · intro hp
        exact absurd (hiff.mpr hp) h0
    · intro hcontra
      exact absurd hcontra h0

end Secimport

namespace Secimport

/-! ## The reachable-state invariant -/

/-- One vulnerability bump keeps the counter inequality. -/
theorem bumpVuln_cinv (e : EnrichedAsset) (v : ParsedVulnerability) (src : String)
    (he : e.critical_vuln_count + e.high_vuln_count ≤ e.vulnerability_count) :
    (bumpVuln e v src).critical_vuln_count + (bumpVuln e v src).high_vuln_count
      ≤ (bumpVuln e v src).vulnerability_count := by
  obtain ⟨b1, b2, b3⟩ := bumpVuln_counters e v src
  by_cases h1 : strLower v.severity = "critical"
  · have h2 : ¬ strLower v.severity = "high" := by
      rw [h1]
      decide
    rw [b1, b2, b3, if_pos h1, if_neg h2]
    omega
  · rw [b1, b2, b3, if_neg h1]
    split <;> omega

/-- The inner scan preserves the counter inequality everywhere. -/
theorem dedupInner_cinv (keep : EnrichedAsset) (l : List EnrichedAsset)
    (hk : keep.critical_vuln_count + keep.high_vuln_count
      ≤ keep.vulnerability_count)
    (hl : ∀ x ∈ l, x.critical_vuln_count + x.high_vuln_count
      ≤ x.vulnerability_count) :
    (dedupInner keep l).1.critical_vuln_count +
        (dedupInner keep l).1.high_vuln_count
      ≤ (dedupInner keep l).1.vulnerability_count := by
  induction l generalizing keep with
  | nil => exact hk
  | cons x xs ih =>
    rw [dedupInner]
    split
    · dsimp only
      obtain ⟨m1, m2, m3⟩ := mergeAssets_counters keep x
      have hx := hl x (List.mem_cons_self x xs)
      exact ih (mergeAssets keep x)
        (by omega)
        (fun y hy => hl y (List.mem_cons_of_mem x hy))
    · exact ih keep hk fun y hy => hl y (List.mem_cons_of_mem x hy)

/-- The outer scan preserves the counter inequality everywhere. -/
theorem dedupGo_cinv (fuel : Nat) (l : List EnrichedAsset)
    (hl : ∀ x ∈ l, x.critical_vuln_count + x.high_vuln_count
      ≤ x.vulnerability_count) :
    ∀ x ∈ (dedupGo fuel l).1, x.critical_vuln_count + x.high_vuln_count
      ≤ x.vulnerability_count := by
  induction fuel generalizing l with
  | zero =>
    cases l with
    | nil => intro x hx; exact absurd hx (by simp [dedupGo])
    | cons a rest =>
      intro x hx
      have hg : dedupGo 0 (a :: rest) = (a :: rest, 0) := rfl
      rw [hg] at hx
      exact hl x hx
  | succ fuel ih =>
    cases l with
    | nil => intro x hx; exact absurd hx (by simp [dedupGo])
    | cons a rest =>
      intro x hx
      rw [dedupGo] at hx
      dsimp only at hx
      rcases List.mem_cons.mp hx with h2 | h2
      · subst h2
        exact dedupInner_cinv a rest (hl a (List.mem_cons_self a rest))
          fun y hy => hl y (List.mem_cons_of_mem a hy)
      · exact ih (dedupInner a rest).2.1
          (fun y hy => hl y
            (List.mem_cons_of_mem a (dedupInner_subset a rest y hy)))
          x h2

end Secimport

namespace Secimport

/-- `ingest_assets` over a list preserves well-formedness and the counter
inequality. -/
theorem ingest_assets_good : ∀ (rs : List ParsedAsset) (st : Store) (c0 : Nat),
    Store.WF st →
    (∀ a ∈ st.assets, a.critical_vuln_count + a.high_vuln_count
      ≤ a.vulnerability_count) →
    ∃ p, rs.foldlM
        (fun p a => (ingestAssetOne p.1 a).map fun st2 => (st2, p.2 + 1))
        ((st, c0) : Store × Nat) = some p ∧
      Store.WF p.1 ∧
      ∀ a ∈ p.1.assets, a.critical_vuln_count + a.high_vuln_count
        ≤ a.vulnerability_count
  | [], st, c0, hw, hc => ⟨(st, c0), rfl, hw, hc⟩
  | r :: rs, st, c0, hw, hc => by
      obtain ⟨st1, he, hwf, _, _, _, hmem⟩ := ingestAssetOne_ok st r hw
      have hc1 : ∀ a ∈ st1.assets, a.critical_vuln_count + a.high_vuln_count
          ≤ a.vulnerability_count := by
        intro a ha
        rcases hmem a ha with ⟨b, hb, e1, e2, e3⟩ | ⟨e1, e2, e3⟩
        · rw [e1, e2, e3]
          exact hc b hb
        · rw [e1, e2, e3]
      obtain ⟨p, hfold, hgw, hgc⟩ := ingest_assets_good rs st1 (c0 + 1) hwf hc1
      refine ⟨p, ?_, hgw, hgc⟩
      rw [List.foldlM_cons]
      simp only [he, Option.map_some', Option.bind_eq_bind, Option.some_bind]
      exact hfold

/-- `ingest_endpoints` over a list preserves the invariant. -/
theorem ingest_endpoints_good : ∀ (rs : List ParsedEndpoint) (st : Store) (c0 : Nat),
    Store.WF st →
    (∀ a ∈ st.assets, a.critical_vuln_count + a.high_vuln_count
      ≤ a.vulnerability_count) →
    ∃ p, rs.foldlM
        (fun p ep => (ingestEndpointOne p.1 ep).map fun st2 => (st2, p.2 + 1))
        ((st, c0) : Store × Nat) = some p ∧
      Store.WF p.1 ∧
      ∀ a ∈ p.1.assets, a.critical_vuln_count + a.high_vuln_count
        ≤ a.vulnerability_count
  | [], st, c0, hw, hc => ⟨(st, c0), rfl, hw, hc⟩
  | r :: rs, st, c0, hw, hc => by
      obtain ⟨st1, he, hwf, _, _, _, hmem⟩ := ingestEndpointOne_ok st r hw
      have hc1 : ∀ a ∈ st1.assets, a.critical_vuln_count + a.high_vuln_count
          ≤ a.vulnerability_count := by
        intro a ha
        rcases hmem a ha with ⟨b, hb, e1, e2, e3⟩ | ⟨e1, e2, e3⟩
        · rw [e1, e2, e3]
          exact hc b hb
        · rw [e1, e2, e3]
      obtain ⟨p, hfold, hgw, hgc⟩ := ingest_endpoints_good rs st1 (c0 + 1) hwf hc1
      refine ⟨p, ?_, hgw, hgc⟩
      rw [List.foldlM_cons]
      simp only [he, Option.map_some', Option.bind_eq_bind, Option.some_bind]
      exact hfold

/-- `ingest_network_observations` over a list preserves the invariant. -/
theorem ingest_netobs_good : ∀ (rs : List ParsedNetworkObservation) (st : Store)
    (c0 : Nat),
    Store.WF st →
    (∀ a ∈ st.assets, a.critical_vuln_count + a.high_vuln_count
      ≤ a.vulnerability_count) →
    ∃ p, rs.foldlM
        (fun p o => (ingestNetObsOne p.1 o).map fun st2 => (st2, p.2 + 1))
        ((st, c0) : Store × Nat) = some p ∧
      Store.WF p.1 ∧
      ∀ a ∈ p.1.assets, a.critical_vuln_count + a.high_vuln_count
        ≤ a.vulnerability_count
  | [], st, c0, hw, hc => ⟨(st, c0), rfl, hw, hc⟩
  | r :: rs, st, c0, hw, hc => by
      obtain ⟨st1, he, hwf, _, _, _, hmem⟩ := ingestNetObsOne_ok st r hw
      have hc1 : ∀ a ∈ st1.assets, a.critical_vuln_count + a.high_vuln_count
          ≤ a.vulnerability_count := by
        intro a ha
        rcases hmem a ha with ⟨b, hb, e1, e2, e3⟩ | ⟨e1, e2, e3⟩
        · rw [e1, e2, e3]
          exact hc b hb
        · rw [e1, e2, e3]
      obtain ⟨p, hfold, hgw, hgc⟩ := ingest_netobs_good rs st1 (c0 + 1) hwf hc1
      refine ⟨p, ?_, hgw, hgc⟩
      rw [List.foldlM_cons]
      simp only [he, Option.map_some', Option.bind_eq_bind, Option.some_bind]
      exact hfold

/-- `ingest_vulnerabilities` over a list preserves the invariant. -/
theorem ingest_vulns_good : ∀ (rs : List ParsedVulnerability) (st : Store)
    (c0 : Nat),
    Store.WF st →
    (∀ a ∈ st.assets, a.critical_vuln_count + a.high_vuln_count
      ≤ a.vulnerability_count) →
    ∃ p, rs.foldlM
        (fun p v => (ingestVulnOne p.1 v).map fun st2 => (st2, p.2 + 1))
        ((st, c0) : Store × Nat) = some p ∧
      Store.WF p.1 ∧
      ∀ a ∈ p.1.assets, a.critical_vuln_count + a.high_vuln_count
        ≤ a.vulnerability_count
  | [], st, c0, hw, hc => ⟨(st, c0), rfl, hw, hc⟩
  | r :: rs, st, c0, hw, hc => by
      obtain ⟨st1, he, hwf, _, _, _, _, _, _, hmem⟩ := ingestVulnOne_ok st r hw
      have hc1 : ∀ a ∈ st1.assets, a.critical_vuln_count + a.high_vuln_count
          ≤ a.vulnerability_count := by
        intro a ha
        rcases hmem a ha with ⟨b, hb, heq | heq⟩ | ⟨b, e1, e2, e3, heq⟩
        · rw [heq]
          exact hc b hb
        · rw [heq]
          exact bumpVuln_cinv b r _ (hc b hb)
        · rw [heq]
          exact bumpVuln_cinv b r _ (by omega)
      obtain ⟨p, hfold, hgw, hgc⟩ := ingest_vulns_good rs st1 (c0 + 1) hwf hc1
      refine ⟨p, ?_, hgw, hgc⟩
      rw [List.foldlM_cons]
      simp only [he, Option.map_some', Option.bind_eq_bind, Option.some_bind]
      exact hfold

/-- `ingest_owner_mappings` over a list preserves the invariant. -/
theorem ingest_owners_good : ∀ (rs : List ParsedOwnerMapping) (st : Store)
    (c0 : Nat),
    Store.WF st →
    (∀ a ∈ st.assets, a.critical_vuln_count + a.high_vuln_count
      ≤ a.vulnerability_count) →
    ∃ p, rs.foldlM
        (fun p mp => (ingestOwnerOne p.1 mp).map fun q =>
          (q.1, if q.2 then p.2 + 1 else p.2))
        ((st, c0) : Store × Nat) = some p ∧
      Store.WF p.1 ∧
      ∀ a ∈ p.1.assets, a.critical_vuln_count + a.high_vuln_count
        ≤ a.vulnerability_count
  | [], st, c0, hw, hc => ⟨(st, c0), rfl, hw, hc⟩
  | r :: rs, st, c0, hw, hc => by
      obtain ⟨q, he, hwf, _, _, _, _, _, _, _, hfalse, htrue, _⟩ :=
        ingestOwnerOne_ok st r hw
      have hc1 : ∀ a ∈ q.1.assets, a.critical_vuln_count + a.high_vuln_count
          ≤ a.vulnerability_count := by
        intro a ha
        rcases hq2 : q.2 with _ | _
        · rw [hfalse hq2] at ha
          exact hc a ha
        · obtain ⟨i, b, b', hb, hassets, hagree⟩ := htrue hq2
          rw [hassets] at ha
          rcases List.mem_or_eq_of_mem_set ha with h2 | h2
          · exact hc a h2
          · have hbmem : b ∈ st.assets := List.get?_mem hb
            obtain ⟨_, _, _, _, _, _, _, _, _, _, _, _, _, _, hvc, hcc, hhc, _⟩ :=
              hagree
            subst h2
            rw [hvc, hcc, hhc]
            exact hc b hbmem
      obtain ⟨p, hfold, hgw, hgc⟩ := ingest_owners_good rs q.1
        (if q.2 then c0 + 1 else c0) hwf hc1
      refine ⟨p, ?_, hgw, hgc⟩
      rw [List.foldlM_cons]
      simp only [he, Option.map_some', Option.bind_eq_bind, Option.some_bind]
      exact hfold

end Secimport

namespace Secimport

/-- `deduplicate` leaves exactly the surviving asset list in the store. -/
theorem deduplicate_assets (st : Store) :
    (deduplicate st).1.assets = (dedupList st.assets).1 := by
  rw [deduplicate]
  split
  · exact (rebuildIndexes_wf { st with assets := (dedupList st.assets).1 }).2
  · rfl

/-- Every public operation succeeds on a good store and keeps it good. -/
theorem applyOp_good (st : Store) (op : Op) (hw : Store.WF st)
    (hc : ∀ a ∈ st.assets, a.critical_vuln_count + a.high_vuln_count
      ≤ a.vulnerability_count) :
    ∃ st', applyOp st op = some st' ∧ Store.WF st' ∧
      ∀ a ∈ st'.assets, a.critical_vuln_count + a.high_vuln_count
        ≤ a.vulnerability_count := by
  cases op with
  | assets rs =>
    obtain ⟨p, hfold, hgw, hgc⟩ := ingest_assets_good rs st 0 hw hc
    exact ⟨p.1, by simp [applyOp, ingest_assets, hfold], hgw, hgc⟩
  | endpoints rs =>
    obtain ⟨p, hfold, hgw, hgc⟩ := ingest_endpoints_good rs st 0 hw hc
    exact ⟨p.1, by simp [applyOp, ingest_endpoints, hfold], hgw, hgc⟩
  | vulns rs =>
    obtain ⟨p, hfold, hgw, hgc⟩ := ingest_vulns_good rs st 0 hw hc
    exact ⟨p.1, by simp [applyOp, ingest_vulnerabilities, hfold], hgw, hgc⟩
  | owners rs =>
    obtain ⟨p, hfold, hgw, hgc⟩ := ingest_owners_good rs st 0 hw hc
    exact ⟨p.1, by simp [applyOp, ingest_owner_mappings, hfold], hgw, hgc⟩
  | netobs rs =>
    obtain ⟨p, hfold, hgw, hgc⟩ := ingest_netobs_good rs st 0 hw hc
    exact ⟨p.1, by simp [applyOp, ingest_network_observations, hfold], hgw, hgc⟩
  | dedup =>
    obtain ⟨hgw, _, _, _⟩ := deduplicate_ok st hw
    refine ⟨(deduplicate st).1, rfl, hgw, ?_⟩
    intro a ha
    rw [deduplicate_assets] at ha
    exact dedupGo_cinv st.assets.length st.assets hc a ha

/-- Folding good operations from a good store stays good. -/
theorem foldOps_good : ∀ (ops : List Op) (st0 : Store),
    Store.WF st0 →
    (∀ a ∈ st0.assets, a.critical_vuln_count + a.high_vuln_count
      ≤ a.vulnerability_count) →
    ∀ st, ops.foldlM applyOp st0 = some st →
      Store.WF st ∧
      ∀ a ∈ st.assets, a.critical_vuln_count + a.high_vuln_count
        ≤ a.vulnerability_count
  | [], st0, hw, hc, st, he => by
      simp only [List.foldlM_nil] at he
      exact Option.some.inj he ▸ ⟨hw, hc⟩
  | op :: ops, st0, hw, hc, st, he => by
      obtain ⟨st1, ha, hw1, hc1⟩ := applyOp_good st0 op hw hc
      rw [List.foldlM_cons, ha] at he
      simp only [Option.bind_eq_bind, Option.some_bind] at he
      exact foldOps_good ops st1 hw1 hc1 st he

/-- Every reachable store is well-formed and satisfies the counter
inequality on every asset. -/
theorem reachable_good (st : Store) (h : Reachable st) :
    Store.WF st ∧
    ∀ a ∈ st.assets, a.critical_vuln_count + a.high_vuln_count
      ≤ a.vulnerability_count := by
  obtain ⟨ops, hops⟩ := h
  have hw0 : Store.WF emptyStore := by
    refine ⟨?_, ?_, ?_, ?_, ?_⟩ <;> intro p hp <;>
      exact absurd hp (by simp [emptyStore])
  exact foldOps_good ops emptyStore hw0 (by simp [emptyStore]) st hops

end Secimport

namespace Secimport

/-- The matcher reads the store only through its five indexes. -/
theorem findMatch_idx_congr (s1 s2 : Store) (k : CorrelationKey)
    (h1 : s1.hostname_idx = s2.hostname_idx) (h2 : s1.ip_idx = s2.ip_idx)
    (h3 : s1.mac_idx = s2.mac_idx) (h4 : s1.serial_idx = s2.serial_idx)
    (h5 : s1.agent_id_idx = s2.agent_id_idx) :
    findMatch s1 k = findMatch s2 k := by
  rw [findMatch, findMatch, matchOrder, matchOrder, h1, h2, h3, h4, h5]

/-- The fresh correlator is well-formed. -/
theorem emptyStore_wf : Store.WF emptyStore := by
  refine ⟨?_, ?_, ?_, ?_, ?_⟩ <;> intro p hp <;>
    exact absurd hp (by simp [emptyStore])

/-- The owner-mapping fold: succeeds, preserves the asset-list length and
all five indexes, and counts exactly the mappings that match against the
initial store. -/
theorem ownerFold_spec : ∀ (ms : List ParsedOwnerMapping) (st : Store) (c0 : Nat),
    Store.WF st →
    ∃ p, ms.foldlM
        (fun p m => (ingestOwnerOne p.1 m).map fun q =>
          (q.1, if q.2 then p.2 + 1 else p.2)) ((st, c0) : Store × Nat) = some p ∧
      p.1.assets.length = st.assets.length ∧
      p.1.hostname_idx = st.hostname_idx ∧ p.1.ip_idx = st.ip_idx ∧
      p.1.mac_idx = st.mac_idx ∧ p.1.serial_idx = st.serial_idx ∧
      p.1.agent_id_idx = st.agent_id_idx ∧
      p.2 = c0 + ms.countP (ownerMatched st)
  | [], st, c0, _ => ⟨(st, c0), rfl, rfl, rfl, rfl, rfl, rfl, rfl, by simp⟩
  | m :: ms, st, c0, hw => by
      obtain ⟨q, he, hwf, hlen, i1, i2, i3, i4, i5, hq2, _, _, _⟩ :=
        ingestOwnerOne_ok st m hw
      obtain ⟨p, hfold, plen, p1, p2, p3, p4, p5, pc⟩ :=
        ownerFold_spec ms q.1 (if q.2 then c0 + 1 else c0) hwf
      have hfun : ownerMatched q.1 = ownerMatched st := by
        funext x
        unfold ownerMatched
        rw [findMatch_idx_congr q.1 st _ i1 i2 i3 i4 i5]
      refine ⟨p, ?_, ?_, ?_, ?_, ?_, ?_, ?_, ?_⟩
      · rw [List.foldlM_cons]
        simp only [he, Option.map_some', Option.bind_eq_bind, Option.some_bind]
        exact hfold
      · rw [plen, hlen]
      · rw [p1, i1]
      · rw [p2, i2]
      · rw [p3, i3]
      · rw [p4, i4]
      · rw [p5, i5]
      · rw [pc, hfun, List.countP_cons, hq2]
        cases hb : ownerMatched st m <;> simp [hb] <;> omega

/-- The get-or-create step of an entirely novel record appends exactly one
asset. -/
theorem novelCore (st : Store) (key : CorrelationKey)
    (mutate : EnrichedAsset → EnrichedAsset) (hf : findMatch st key = some {}) :
    ∃ st',
      ((findMatch st key).bind fun m =>
        (getOrCreate st m).map fun g =>
          let st1 : Store := { st with assets := g.2.2.set g.1 (mutate g.2.1) }
          st1.updateIndexes (st1.assets.length - 1) key) = some st' ∧
      st'.assets.length = st.assets.length + 1 := by
  rw [hf, Option.some_bind']
  have hg : getOrCreate st ({} : MatchResult)
      = some (st.assets.length, ({} : EnrichedAsset),
          st.assets ++ [({} : EnrichedAsset)]) := rfl
  rw [hg, Option.map_some']
  refine ⟨_, rfl, ?_⟩
  show ((st.assets ++ [({} : EnrichedAsset)]).set st.assets.length
      (mutate ({} : EnrichedAsset))).length = st.assets.length + 1
  rw [List.length_set]
  simp

end Secimport

namespace Secimport

/-- C3: `ingest_owner_mappings` never creates an asset: on a well-formed
store every input sequence succeeds with `asset_count` unchanged and
returns exactly the number of mappings whose normalized ip matched an
existing asset; a mapping that finds no match leaves the store unchanged,
and a matched mapping rewrites only the matched asset's four ownership
fields (all other fields and all five indexes are untouched). -/
theorem ingest_owner_mappings_frame (st : Store) (h : Store.WF st) :
    (∀ ms : List ParsedOwnerMapping, ∃ p,
      ingest_owner_mappings st ms = some p ∧
      p.1.asset_count = st.asset_count ∧
      p.2 = ms.countP (ownerMatched st)) ∧
    (∀ mp : ParsedOwnerMapping, ownerMatched st mp = false →
      ingestOwnerOne st mp = some (st, false)) ∧
    (∀ mp : ParsedOwnerMapping, ownerMatched st mp = true →
      ∃ q i b b', ingestOwnerOne st mp = some q ∧ q.2 = true ∧
        q.1.hostname_idx = st.hostname_idx ∧ q.1.ip_idx = st.ip_idx ∧
        q.1.mac_idx = st.mac_idx ∧ q.1.serial_idx = st.serial_idx ∧
        q.1.agent_id_idx = st.agent_id_idx ∧
        st.assets.get? i = some b ∧ q.1.assets = st.assets.set i b' ∧
        AgreesExceptOwner b' b) := by
  refine ⟨?_, ?_, ?_⟩
  · intro ms
    obtain ⟨p, hfold, plen, _, _, _, _, _, pc⟩ := ownerFold_spec ms st 0 h
    refine ⟨p, hfold, plen, ?_⟩
    rw [pc]
    omega
  · intro mp hm
    obtain ⟨q, he, _, _, _, _, _, _, _, hq2, hfalse, _, _⟩ :=
      ingestOwnerOne_ok st mp h
    have hqf : q.2 = false := by rw [hq2, hm]
    have hq1 : q.1 = st := hfalse hqf
    obtain ⟨qs, qb⟩ := q
    dsimp only at hq1 hqf
    subst hq1
    subst hqf
    exact he
  · intro mp hm
    obtain ⟨q, he, _, _, i1, i2, i3, i4, i5, hq2, _, htrue, _⟩ :=
      ingestOwnerOne_ok st mp h
    have hq2' : q.2 = true := by rw [hq2, hm]
    obtain ⟨i, b, b', hb, hset, hag⟩ := htrue hq2'
    exact ⟨q, i, b, b', he, hq2', i1, i2, i3, i4, i5, hb, hset, hag⟩

/-- Witness for C3: one novel owner mapping against the fresh correlator
is processed with `asset_count` unchanged and the match count as return
value. -/
theorem ingest_owner_mappings_frame_witness :
    ∃ p, ingest_owner_mappings emptyStore
        [({ ip_address := some "10.0.0.1" } : ParsedOwnerMapping)] = some p ∧
      p.1.asset_count = emptyStore.asset_count ∧
      p.2 = [({ ip_address := some "10.0.0.1" } :
        ParsedOwnerMapping)].countP (ownerMatched emptyStore) :=
  (ingest_owner_mappings_frame emptyStore emptyStore_wf).1
    [({ ip_address := some "10.0.0.1" } : ParsedOwnerMapping)]

end Secimport

namespace Secimport

/-- C6 (counterexample): a reachable store, itself produced by a
`deduplicate` call, on which an immediately repeated `deduplicate`
performs one more merge and returns 1 instead of 0: a transitive overlap
chain (web01 and web02 linked through one network observation sharing the
ip of one and the mac of the other) survives the first pass. -/
theorem deduplicate_second_pass_counterexample :
    (runOps [Op.assets [{ hostname := some "web01" },
        { hostname := some "web02" }, { hostname := some "web03" },
        { hostname := some "web01", ip_address := some "10.0.0.1" },
        { hostname := some "web02", mac_address := some "AA:BB:CC:DD:EE:01" }],
      Op.netobs [{ ip_address := some "10.0.0.1", mac_address := some "AA:BB:CC:DD:EE:01" }],
      Op.dedup]).map
      (fun st => ((deduplicate st).2, st.asset_count)) = some (1, 2) := rfl

/-- C6 (amended): a `deduplicate` pass returns 0 exactly when the store's
asset keys are already pairwise non-overlapping, in which case it leaves
the store unchanged; a second immediate call returns 0 precisely when the
keys surviving the first pass are pairwise non-overlapping (which a single
pass does not guarantee). -/
theorem deduplicate_merge_free_spec (st : Store) (h : Store.WF st) :
    ((deduplicate st).2 = 0 ↔ PairwiseDisjointKeys st.assets) ∧
    ((deduplicate st).2 = 0 → (deduplicate st).1 = st) ∧
    ((deduplicate (deduplicate st).1).2 = 0 ↔
      PairwiseDisjointKeys (deduplicate st).1.assets) := by
  obtain ⟨hw', _, hiff, hid⟩ := deduplicate_ok st h
  obtain ⟨_, _, hiff2, _⟩ := deduplicate_ok (deduplicate st).1 hw'
  exact ⟨hiff, hid, hiff2⟩

/-- Witness for C6's amended statement at the fresh correlator. -/
theorem deduplicate_merge_free_spec_witness :
    ((deduplicate emptyStore).2 = 0 ↔ PairwiseDisjointKeys emptyStore.assets) ∧
    ((deduplicate emptyStore).2 = 0 →
      (deduplicate emptyStore).1 = emptyStore) ∧
    ((deduplicate (deduplicate emptyStore).1).2 = 0 ↔
      PairwiseDisjointKeys (deduplicate emptyStore).1.assets) :=
  deduplicate_merge_free_spec emptyStore emptyStore_wf

end Secimport

namespace Secimport

/-- C7: the three normalizers are total functions returning `none` on
absent, empty, whitespace-only and invalid input, and every public engine
operation on a reachable store completes and returns a store (`none`,
the embedded image of a raise, never occurs). -/
theorem operations_total (st : Store) (h : Reachable st) (op : Op) :
    (normalize_hostname none = none ∧ normalize_hostname (some "") = none ∧
      normalize_hostname (some "   ") = none) ∧
    (normalize_ip none = none ∧ normalize_ip (some "") = none ∧
      normalize_ip (some "   ") = none ∧
      normalize_ip (some "not-an-ip") = none ∧
      normalize_ip (some "10.0.0.256") = none) ∧
    (normalize_mac none = none ∧ normalize_mac (some "") = none ∧
      normalize_mac (some "  ") = none ∧
      normalize_mac (some "AA:BB:CC:DD:EE") = none ∧
      normalize_mac (some "zz:zz:zz:zz:zz:zz") = none) ∧
    (∃ st', applyOp st op = some st') := by
  obtain ⟨hw, hc⟩ := reachable_good st h
  obtain ⟨st', he, _, _⟩ := applyOp_good st op hw hc
  exact ⟨⟨rfl, rfl, rfl⟩, ⟨rfl, rfl, rfl, rfl, rfl⟩,
    ⟨rfl, rfl, rfl, rfl, rfl⟩, st', he⟩

/-- Witness for C7: deduplication of the fresh correlator completes. -/
theorem operations_total_witness :
    (normalize_hostname none = none ∧ normalize_hostname (some "") = none ∧
      normalize_hostname (some "   ") = none) ∧
    (normalize_ip none = none ∧ normalize_ip (some "") = none ∧
      normalize_ip (some "   ") = none ∧
      normalize_ip (some "not-an-ip") = none ∧
      normalize_ip (some "10.0.0.256") = none) ∧
    (normalize_mac none = none ∧ normalize_mac (some "") = none ∧
      normalize_mac (some "  ") = none ∧
      normalize_mac (some "AA:BB:CC:DD:EE") = none ∧
      normalize_mac (some "zz:zz:zz:zz:zz:zz") = none) ∧
    (∃ st', applyOp emptyStore Op.dedup = some st') :=
  operations_total emptyStore ⟨[], rfl⟩ Op.dedup

end Secimport

namespace Secimport

/-- C10: every reachable store is well-formed — each position list stored
in any of the five indexes is non-empty, duplicate-free and within the
asset-store bounds — and the matcher always returns a result whose chosen
asset position, when present, is a valid store index. -/
theorem index_wellformedness (st : Store) (h : Reachable st) :
    Store.WF st ∧
    ∀ k : CorrelationKey, ∃ r, findMatch st k = some r ∧
      ∀ i, r.enriched_asset_index = some i → i < st.asset_count := by
  obtain ⟨hw, _⟩ := reachable_good st h
  refine ⟨hw, fun k => ?_⟩
  obtain ⟨r, hr, hb, _, _, _⟩ := findMatch_wf st k hw
  exact ⟨r, hr, hb⟩

/-- Witness for C10 at the fresh correlator. -/
theorem index_wellformedness_witness :
    Store.WF emptyStore ∧
    ∀ k : CorrelationKey, ∃ r, findMatch emptyStore k = some r ∧
      ∀ i, r.enriched_asset_index = some i → i < emptyStore.asset_count :=
  index_wellformedness emptyStore ⟨[], rfl⟩

end Secimport

namespace Secimport

/-- C1: refuted on the matched path.  Ingesting `web01`, `web02`, then a
record carrying `web01` and ip `10.0.0.1` mutates the matched asset at
position 0 (whose merged key now holds the ip, as the final map shows),
but `_update_indexes(len(self._assets) - 1, key)` registers the record's
identifier values under the last store position instead, so `ip_idx`
sends `10.0.0.1` to position 1 — an asset whose key does not contain that
ip.  The record's key values therefore do not all map to the mutated
asset's position. -/
theorem update_indexes_registers_wrong_position :
    (ingest_assets emptyStore [{ hostname := some "web01" },
        { hostname := some "web02" },
        { hostname := some "web01", ip_address := some "10.0.0.1" }]).map
      (fun p => (p.2, p.1.ip_idx.lookup "10.0.0.1",
        p.1.assets.map
          (fun a => decide ("10.0.0.1" ∈ a.correlation_key.ip_addresses))))
      = some (3, some [1], [true, false]) := rfl

/-- C9 (counterexample): an owner mapping whose normalized ip is entirely
novel is accepted and processed, yet `asset_count` stays 0 — owner
mappings never create assets, so "every record variant" fails. -/
theorem novel_owner_mapping_counterexample :
    NovelKey emptyStore (buildKey none (some "10.0.0.1") none none none) ∧
    (ingest_owner_mappings emptyStore
        [({ ip_address := some "10.0.0.1", owner_email := some "noc@example.com" } : ParsedOwnerMapping)]).map
      (fun p => (p.1.asset_count, p.2)) = some (0, 0) := by
  refine ⟨?_, rfl⟩
  unfold NovelKey
  refine ⟨?_, ?_, ?_, ?_, ?_⟩ <;> intro v hv <;> rfl

end Secimport

namespace Secimport

/-- C4: in every reachable state every asset satisfies
`critical_vuln_count + high_vuln_count ≤ vulnerability_count`; no ingest
operation lowers a surviving asset's three counters; one vulnerability
record raises the totals by exactly 1 for `vulnerability_count` and by 1
for the sub-counter selected by the record's case-insensitive severity
(0 otherwise); every deduplication survivor dominates some input asset's
counters; and `_merge_assets` sums all three counters. -/
theorem vulnerability_counter_invariants (st : Store) (h : Reachable st) :
    (∀ a ∈ st.assets, a.critical_vuln_count + a.high_vuln_count
      ≤ a.vulnerability_count) ∧
    (∀ v : ParsedVulnerability, ∃ st', ingestVulnOne st v = some st' ∧
      sumVuln st'.assets = sumVuln st.assets + 1 ∧
      sumCrit st'.assets = sumCrit st.assets +
        (if strLower v.severity = "critical" then 1 else 0) ∧
      sumHigh st'.assets = sumHigh st.assets +
        (if strLower v.severity = "high" then 1 else 0) ∧
      (∀ j b, st.assets.get? j = some b →
        ∃ b', st'.assets.get? j = some b' ∧ cntLE b b')) ∧
    (∀ a : ParsedAsset, ∃ st', ingestAssetOne st a = some st' ∧
      ∀ j b, st.assets.get? j = some b →
        ∃ b', st'.assets.get? j = some b' ∧ cntLE b b') ∧
    (∀ ep : ParsedEndpoint, ∃ st', ingestEndpointOne st ep = some st' ∧
      ∀ j b, st.assets.get? j = some b →
        ∃ b', st'.assets.get? j = some b' ∧ cntLE b b') ∧
    (∀ o : ParsedNetworkObservation, ∃ st', ingestNetObsOne st o = some st' ∧
      ∀ j b, st.assets.get? j = some b →
        ∃ b', st'.assets.get? j = some b' ∧ cntLE b b') ∧
    (∀ a' ∈ (deduplicate st).1.assets, ∃ a ∈ st.assets, cntLE a a') ∧
    (∀ x y : EnrichedAsset,
      (mergeAssets x y).vulnerability_count
          = x.vulnerability_count + y.vulnerability_count ∧
      (mergeAssets x y).critical_vuln_count
          = x.critical_vuln_count + y.critical_vuln_count ∧
      (mergeAssets x y).high_vuln_count
          = x.high_vuln_count + y.high_vuln_count) := by
  obtain ⟨hw, hc⟩ := reachable_good st h
  refine ⟨hc, ?_, ?_, ?_, ?_, ?_, mergeAssets_counters⟩
  · intro v
    obtain ⟨st', he, _, _, _, s1, s2, s3, hpos, _⟩ := ingestVulnOne_ok st v hw
    refine ⟨st', he, s1, s2, s3, ?_⟩
    intro j b hb
    obtain ⟨b', hb', l1, l2, l3⟩ := hpos j b hb
    exact ⟨b', hb', l1, l2, l3⟩
  · intro a
    obtain ⟨st', he, _, _, _, hpos, _⟩ := ingestAssetOne_ok st a hw
    refine ⟨st', he, ?_⟩
    intro j b hb
    obtain ⟨b', hb', e1, e2, e3⟩ := hpos j b hb
    exact ⟨b', hb', e1.symm.le, e2.symm.le, e3.symm.le⟩
  · intro ep
    obtain ⟨st', he, _, _, _, hpos, _⟩ := ingestEndpointOne_ok st ep hw
    refine ⟨st', he, ?_⟩
    intro j b hb
    obtain ⟨b', hb', e1, e2, e3⟩ := hpos j b hb
    exact ⟨b', hb', e1.symm.le, e2.symm.le, e3.symm.le⟩
  · intro o
    obtain ⟨st', he, _, _, _, hpos, _⟩ := ingestNetObsOne_ok st o hw
    refine ⟨st', he, ?_⟩
    intro j b hb
    obtain ⟨b', hb', e1, e2, e3⟩ := hpos j b hb
    exact ⟨b', hb', e1.symm.le, e2.symm.le, e3.symm.le⟩
  · intro a' ha'
    obtain ⟨_, hdom, _, _⟩ := deduplicate_ok st hw
    obtain ⟨a, ham, l1, l2, l3⟩ := hdom a' ha'
    exact ⟨a, ham, l1, l2, l3⟩

/-- Witness for C4: one critical vulnerability on the fresh correlator
raises the vulnerability and critical totals by 1 and the high total by
0. -/
theorem vulnerability_counter_invariants_witness :
    ∃ st', ingestVulnOne emptyStore { severity := "Critical" } = some st' ∧
      sumVuln st'.assets = 1 ∧ sumCrit st'.assets = 1 ∧
      sumHigh st'.assets = 0 := by
  obtain ⟨st', he, s1, s2, s3, _⟩ :=
    (vulnerability_counter_invariants emptyStore ⟨[], rfl⟩).2.1
      { severity := "Critical" }
  refine ⟨st', he, ?_, ?_, ?_⟩
  · rw [s1]
    rfl
  · rw [s2]
    rfl
  · rw [s3]
    rfl

end Secimport

namespace Secimport

set_option maxHeartbeats 1600000 in
/-- C9 (amended): a record whose normalized identifiers are entirely novel
increases `asset_count` by exactly 1 when ingested as an asset, endpoint,
network observation or vulnerability; a novel owner mapping is the
exception — it leaves the store unchanged and is not counted. -/
theorem novel_record_asset_count (st : Store) :
    (∀ a : ParsedAsset,
      NovelKey st (buildKey a.hostname a.ip_address a.mac_address
        a.serial_number none) →
      ∃ st', ingestAssetOne st a = some st' ∧
        st'.asset_count = st.asset_count + 1) ∧
    (∀ ep : ParsedEndpoint,
      NovelKey st (buildKey ep.hostname ep.ip_address ep.mac_address
        ep.serial_number ep.agent_id) →
      ∃ st', ingestEndpointOne st ep = some st' ∧
        st'.asset_count = st.asset_count + 1) ∧
    (∀ o : ParsedNetworkObservation,
      NovelKey st (buildKey o.hostname o.ip_address o.mac_address none none) →
      ∃ st', ingestNetObsOne st o = some st' ∧
        st'.asset_count = st.asset_count + 1) ∧
    (∀ v : ParsedVulnerability,
      NovelKey st (buildKey v.hostname v.ip_address none none none) →
      ∃ st', ingestVulnOne st v = some st' ∧
        st'.asset_count = st.asset_count + 1) ∧
    (∀ mp : ParsedOwnerMapping,
      NovelKey st (buildKey none mp.ip_address none none none) →
      ingestOwnerOne st mp = some (st, false)) := by
  refine ⟨?_, ?_, ?_, ?_, ?_⟩
  · intro a hnov
    obtain ⟨st', he, hlen⟩ := novelCore st
      (buildKey a.hostname a.ip_address a.mac_address a.serial_number none)
      (fun e => applyAssetFields
        { e with
          correlation_key := e.correlation_key.merge
            (buildKey a.hostname a.ip_address a.mac_address a.serial_number none),
          present_in_sources := addUnique e.present_in_sources
            (pyOr a.source_system "unknown"),
          source_records := srAppend e.source_records
            (pyOr a.source_system "unknown") (RawRecord.asset a) }
        a (pyOr a.source_system "unknown")
        (SourceConfidence.get (pyOr a.source_system "unknown")))
      (findMatch_novel st _ hnov)
    refine ⟨st', ?_, hlen⟩
    rw [← he]
    rfl
  · intro ep hnov
    obtain ⟨st', he, hlen⟩ := novelCore st
      (buildKey ep.hostname ep.ip_address ep.mac_address ep.serial_number
        ep.agent_id)
      (fun e => applyEndpointFields
        { e with
          correlation_key := e.correlation_key.merge
            (buildKey ep.hostname ep.ip_address ep.mac_address ep.serial_number
              ep.agent_id),
          present_in_sources := addUnique e.present_in_sources
            (pyOr ep.source_system "unknown"),
          source_records := srAppend e.source_records
            (pyOr ep.source_system "unknown") (RawRecord.endpoint ep) }
        ep (pyOr ep.source_system "unknown")
        (SourceConfidence.get (pyOr ep.source_system "unknown")))
      (findMatch_novel st _ hnov)
    refine ⟨st', ?_, hlen⟩
    rw [← he]
    rfl
  · intro o hnov
    obtain ⟨st', he, hlen⟩ := novelCore st
      (buildKey o.hostname o.ip_address o.mac_address none none)
      (fun e => applyNetObsFields
        { e with
          correlation_key := e.correlation_key.merge
            (buildKey o.hostname o.ip_address o.mac_address none none),
          present_in_sources := addUnique e.present_in_sources
            (pyOr o.source_system "unknown") }
        o (pyOr o.source_system "unknown")
        (SourceConfidence.get (pyOr o.source_system "unknown")))
      (findMatch_novel st _ hnov)
    refine ⟨st', ?_, hlen⟩
    rw [← he]
    rfl
  · intro v hnov
    have hf := findMatch_novel st (buildKey v.hostname v.ip_address none none none)
      hnov
    have hkey : ingestVulnOne st v =
        (findMatch st (buildKey v.hostname v.ip_address none none none)).bind
          fun m =>
          (if m.matched then
            match m.enriched_asset_index with
            | some i => (st.assets.get? i).map fun e => (i, e, st)
            | none =>
              some (newVulnAsset st
                (buildKey v.hostname v.ip_address none none none))
          else
            some (newVulnAsset st
              (buildKey v.hostname v.ip_address none none none))).map
            fun g =>
              { g.2.2 with
                assets := g.2.2.assets.set g.1
                  (bumpVuln g.2.1 v (pyOr v.source_system "unknown")) } := rfl
    rw [hkey, hf, Option.some_bind']
    refine ⟨_, rfl, ?_⟩
    show ({ (newVulnAsset st (buildKey v.hostname v.ip_address none none none)).2.2 with
      assets := (newVulnAsset st
        (buildKey v.hostname v.ip_address none none none)).2.2.assets.set
        (newVulnAsset st (buildKey v.hostname v.ip_address none none none)).1
        (bumpVuln (newVulnAsset st
          (buildKey v.hostname v.ip_address none none none)).2.1 v
          (pyOr v.source_system "unknown")) } : Store).asset_count
      = st.asset_count + 1
    simp [Store.asset_count, newVulnAsset, Store.updateIndexes]
  · intro mp hnov
    have hf := findMatch_novel st (buildKey none mp.ip_address none none none)
      hnov
    have hkey : ingestOwnerOne st mp =
        (findMatch st (buildKey none mp.ip_address none none none)).bind fun r =>
          if r.matched then
            match r.enriched_asset_index with
            | some i =>
              (st.assets.get? i).map fun e =>
                ({ st with assets := st.assets.set i ((((e.set_field .owner_email mp.owner_email (pyOr mp.source_system "unknown") (SourceConfidence.get (pyOr mp.source_system "unknown") * mp.confidence)).set_field .owner_name mp.owner_name (pyOr mp.source_system "unknown") (SourceConfidence.get (pyOr mp.source_system "unknown") * mp.confidence)).set_field .department mp.department (pyOr mp.source_system "unknown") (SourceConfidence.get (pyOr mp.source_system "unknown") * mp.confidence)).set_field .location mp.location (pyOr mp.source_system "unknown") (SourceConfidence.get (pyOr mp.source_system "unknown") * mp.confidence)) }, true)
            | none => some (st, false)
          else some (st, false) := rfl
    rw [hkey, hf, Option.some_bind']
    rfl

/-- Witness for C9's amended statement: a novel asset record on the fresh
correlator raises `asset_count` from 0 to 1. -/
theorem novel_record_asset_count_witness :
    ∃ st', ingestAssetOne emptyStore { hostname := some "web01" } = some st' ∧
      st'.asset_count = emptyStore.asset_count + 1 :=
  (novel_record_asset_count emptyStore).1 { hostname := some "web01" }
    (by unfold NovelKey; refine ⟨?_, ?_, ?_, ?_, ?_⟩ <;> intro v hv <;> rfl)

end Secimport
